import Mathlib

/-!
Verification of the pbpstats enhanced play-by-play engine specification
against its source.  Each numbered claim from the specification is settled
by a theorem about a shallow embedding of the relevant Python code:

* `shot_clock.py` (`_get_short_reset_value`, `_annotate_period_shot_clock`),
* `stats_nba/rebound.py` (`StatsRebound.missed_shot`),
* `stats_nba/free_throw.py` (`StatsFreeThrow.is_made`),
* `nba_enhanced_pbp_loader.py` (fouls-to-give sweep),
* `offline/processor.py` (`_fix_event_order`) and `offline/ordering.py`,
* `stats_nba/pbp/cdn_adapter.py` (`iso_to_pctimestring`),
* `stats_nba/pbp/web.py` (`_dedupe_actions`),
* `possessions/possessions.py` (`_aggregate_event_stats`).

Machine floats are modelled as exact rationals; Python `round(x, n)` is
modelled as exact round-half-to-even on the rational value.
-/

namespace Pbp

/-! ### Shared arithmetic helpers -/

/-- Round-half-to-even to the nearest integer, the tie-breaking rule used by
Python's `round` builtin and `%.2f` float formatting (modelled exactly on ℚ). -/
def roundHalfEven (x : ℚ) : ℤ :=
if x - ⌊x⌋ < 1/2 then ⌊x⌋
else if 1/2 < x - ⌊x⌋ then ⌊x⌋ + 1
else if ⌊x⌋ % 2 = 0 then ⌊x⌋ else ⌊x⌋ + 1

/-- Python `round(x, 1)` on an exact rational value. -/
def roundTenth (x : ℚ) : ℚ := (roundHalfEven (x * 10) : ℚ) / 10

theorem roundHalfEven_intCast (n : ℤ) : roundHalfEven (n : ℚ) = n := by
  simp [roundHalfEven]

theorem roundTenth_eq_self_of_tenth (x : ℚ) (n : ℤ) (h : x * 10 = (n : ℚ)) :
    roundTenth x = x := by
  have hx : x = (n : ℚ) / 10 := by
    field_simp
    linarith [h]
  subst hx
  rw [roundTenth, h, roundHalfEven_intCast]

/-! ### Claim C6 — `_get_short_reset_value` (shot_clock.py lines 150–175) -/

/-- League identifier.  Modelled from the spec: the string constants
`NBA_STRING` / `WNBA_STRING` / `G_LEAGUE_STRING` are defined in
`pbpstats/__init__.py`, which is not part of the provided sources; §6 of the
spec fixes the league domain to `"nba" | "wnba" | "gleague"` (so the
`hasattr(pbpstats, "D_LEAGUE_STRING")` probe in the source finds nothing
beyond those three leagues). -/
inductive League where
| nba : League
| wnba : League
| gleague : League
deriving DecidableEq, Repr

/-- The `short_reset_leagues` set built by `_get_short_reset_value`
(`{pbpstats.WNBA_STRING, pbpstats.G_LEAGUE_STRING}`). -/
def shortResetLeagues : List League := [League.wnba, League.gleague]

/-- `season_year is not None and season_year >= 2018` from the source. -/
def seasonYearGE2018 : Option ℤ → Bool
| some y => decide (2018 ≤ y)
| none => false

/-- `league in short_reset_leagues` from the source (`None` is in no set). -/
def leagueInShortResetLeagues : Option League → Bool
| some l => shortResetLeagues.contains l
| none => false

/-- Embedding of `_get_short_reset_value(league, season_year)` from
`pbpstats/resources/enhanced_pbp/shot_clock.py`. -/
def getShortResetValue (league : Option League) (seasonYear : Option ℤ) : ℚ :=
if league == some League.nba && seasonYearGE2018 seasonYear then 14
else if leagueInShortResetLeagues league then 14
else 24

/-- The condition claimed to characterise a 14-second short reset. -/
def shortResetCond (league : Option League) (seasonYear : Option ℤ) : Prop :=
(league = some League.nba ∧ ∃ n : ℤ, seasonYear = some n ∧ 2018 ≤ n)
∨ league = some League.wnba ∨ league = some League.gleague

/-- Claim C6: `_get_short_reset_value` returns 14.0 exactly when the league is
NBA with a known season year ≥ 2018, or the league is WNBA or G-League, and
returns 24.0 in every other case. -/
theorem C6_short_reset_theorem (l : Option League) (y : Option ℤ) :
    (getShortResetValue l y = 14 ↔ shortResetCond l y)
    ∧ (getShortResetValue l y = 24 ↔ ¬ shortResetCond l y) := by
  have h14 : (14 : ℚ) ≠ 24 := by norm_num
  rcases l with _ | league
  · rcases y with _ | n
    · simp [getShortResetValue, shortResetCond, shortResetLeagues,
        seasonYearGE2018, leagueInShortResetLeagues, h14]
    · simp [getShortResetValue, shortResetCond, shortResetLeagues,
        seasonYearGE2018, leagueInShortResetLeagues, h14]
  · rcases y with _ | n
    · cases league <;>
        simp [getShortResetValue, shortResetCond, shortResetLeagues,
          seasonYearGE2018, leagueInShortResetLeagues, h14]
    · by_cases hn : (2018 : ℤ) ≤ n <;> cases league <;>
        simp [getShortResetValue, shortResetCond, shortResetLeagues,
          seasonYearGE2018, leagueInShortResetLeagues, h14, hn]

/-! ### Claim C5 — the broken import in `pbpstats/offline/processor.py` -/

/-- The top-level names bound in module `pbpstats.offline.ordering`
(`offline/ordering.py`): its own imports (`Callable`, `List`, `Dict` from
`typing`, `np`, `pd`) plus the type alias and the four functions it defines.
No other top-level binding occurs in that file. -/
def orderingModuleTopLevelNames : List String :=
["Callable", "List", "Dict", "np", "pd", "FetchPbpV3Fn",
 "create_raw_dicts_from_df", "dedupe_with_v3", "patch_start_of_periods",
 "reorder_with_v3"]

/-- The names `pbpstats/offline/processor.py` (lines 14–20) imports from
`pbpstats.offline.ordering`. -/
def processorImportsFromOrdering : List String :=
["create_raw_dicts_from_df", "dedupe_with_v3", "patch_start_of_periods",
 "reorder_with_v3", "_ensure_eventnum_int"]

/-- Python's `from M import a, b, ...` succeeds only when every requested
name is bound at top level in module M; otherwise the import of the whole
importing module fails with ImportError. -/
def offlineProcessorImportSucceeds : Bool :=
processorImportsFromOrdering.all (fun n => orderingModuleTopLevelNames.contains n)

/-- Claim C5: importing `pbpstats.offline.processor` fails, because it imports
`_ensure_eventnum_int` from `pbpstats.offline.ordering` and that module binds
no such top-level name (so every call to `get_possessions_from_df`, which
lives in the failing module, is unreachable). -/
theorem C5_import_error_theorem :
    offlineProcessorImportSucceeds = false
    ∧ "_ensure_eventnum_int" ∈ processorImportsFromOrdering
    ∧ "_ensure_eventnum_int" ∉ orderingModuleTopLevelNames := by
  refine ⟨by decide, by decide, by decide⟩

/-! ### Claim C10 — `StatsFreeThrow.is_made` (stats_nba/free_throw.py) -/

/-- `charsPrefix n h` is true when `n` is a leading segment of `h`. -/
def charsPrefix : List Char → List Char → Bool
| [], _ => true
| _ :: _, [] => false
| a :: as, b :: bs => a == b && charsPrefix as bs

/-- `charsInfix n h` is true when `n` occurs contiguously inside `h`. -/
def charsInfix (needle : List Char) : List Char → Bool
| [] => charsPrefix needle []
| c :: rest => charsPrefix needle (c :: rest) || charsInfix needle rest

/-- Python's substring test `needle in hay`. -/
def strContains (hay needle : String) : Bool := charsInfix needle.data hay.data

/-- The fields of the event following a free throw that
`StatsFreeThrow.is_made` inspects (`event_type`, `team_id`; both attributes
exist on every enhanced-pbp event, so the source's `hasattr` probes hold). -/
structure FtNextEvent where
  eventType : ℤ
  teamId : ℤ
deriving DecidableEq, Repr

/-- The fields of a stats-NBA free throw event read by `is_made` and the
trip-position properties it uses. -/
structure FreeThrowEvent where
  description : String
  eventActionType : ℤ
  teamId : ℤ
  nextEvent : Option FtNextEvent
deriving Repr

/-- `is_ft_1_of_1` (action type 10, or 20 for flagrant 1 of 1). -/
def isFt1of1 (ft : FreeThrowEvent) : Bool :=
ft.eventActionType == 10 || ft.eventActionType == 20

/-- `is_ft_2_of_2` (action type 12). -/
def isFt2of2 (ft : FreeThrowEvent) : Bool := ft.eventActionType == 12

/-- `is_ft_3_of_3` (action type 15). -/
def isFt3of3 (ft : FreeThrowEvent) : Bool := ft.eventActionType == 15

/-- `is_technical_ft` (`" Technical" in self.description`). -/
def isTechnicalFt (ft : FreeThrowEvent) : Bool :=
strContains ft.description " Technical"

/-- Modelled from the spec: `FreeThrow.is_end_ft` is defined in the base class
`pbpstats/resources/enhanced_pbp/free_throw.py`, which is not among the
provided sources.  The spec glossary defines it: "Terminal FT: the last free
throw of a trip (1-of-1, 2-of-2, 3-of-3, technical)". -/
def isEndFt (ft : FreeThrowEvent) : Bool :=
isFt1of1 ft || isFt2of2 ft || isFt3of3 ft || isTechnicalFt ft

/-- The rebound test on `next_event` from `is_made`: the next event is a
rebound (`event_type == 4`) whose nonzero `team_id` differs from the free
throw's nonzero `team_id`. -/
def nextIsOpponentRebound (ft : FreeThrowEvent) : Bool :=
match ft.nextEvent with
| some nxt =>
    nxt.eventType == 4 && nxt.teamId != 0 && ft.teamId != 0 && nxt.teamId != ft.teamId
| none => false

/-- Embedding of `StatsFreeThrow.is_made`
(`pbpstats/resources/enhanced_pbp/stats_nba/free_throw.py`, lines 17–51). -/
def ftIsMade (ft : FreeThrowEvent) : Bool :=
if strContains ft.description "MISS " then false
else if strContains ft.description " PTS)" then true
else if (isEndFt ft || isFt1of1 ft || isTechnicalFt ft) && nextIsOpponentRebound ft
  then false
else true

/-- The claimed characterisation of a missed free throw, written independently
from the claim's words: description contains `"MISS "`; or (no `"MISS "`, no
`" PTS)"`, the free throw is terminal / 1-of-1 / technical, and the next event
is a rebound with a differing nonzero team id). -/
def ftMissCond (ft : FreeThrowEvent) : Prop :=
strContains ft.description "MISS " = true
∨ (strContains ft.description "MISS " = false
   ∧ strContains ft.description " PTS)" = false
   ∧ (isEndFt ft = true ∨ isFt1of1 ft = true ∨ isTechnicalFt ft = true)
   ∧ ∃ nxt, ft.nextEvent = some nxt ∧ nxt.eventType = 4 ∧ nxt.teamId ≠ 0
       ∧ ft.teamId ≠ 0 ∧ nxt.teamId ≠ ft.teamId)

/-- Claim C10: `is_made` returns False exactly when the description contains
`"MISS "`, or else contains no `" PTS)"` and the free throw is a terminal,
1-of-1, or technical free throw whose immediately following event is a rebound
with a differing nonzero team id; in all remaining cases it returns True. -/
theorem C10_ft_is_made_theorem (ft : FreeThrowEvent) :
    ftIsMade ft = false ↔ ftMissCond ft := by
  unfold ftIsMade ftMissCond nextIsOpponentRebound
  by_cases hmiss : strContains ft.description "MISS " <;>
    by_cases hpts : strContains ft.description " PTS)" <;>
      by_cases hend : isEndFt ft <;>
        by_cases h11 : isFt1of1 ft <;>
          by_cases htech : isTechnicalFt ft <;>
            rcases hnxt : ft.nextEvent with _ | nxt <;>
              simp [hmiss, hpts, hend, h11, htech, hnxt, and_assoc]

/-! ### Claim C8 — `StatsNbaPbpWebLoader._dedupe_actions` (stats_nba/pbp/web.py) -/

/-- A CDN play-by-play action, restricted to the fields `_dedupe_actions`
reads; `payload` stands for all remaining row content so that distinct
duplicate rows stay distinguishable. -/
structure CdnAction where
  actionNumber : Option ℤ
  timeActual : Option String
  orderNumber : Option ℤ
  edited : Bool
  payload : ℕ
deriving DecidableEq, Repr, Inhabited

/-- The dedupe key `(actionNumber, timeActual, orderNumber)`. -/
abbrev ActionKey : Type := Option ℤ × Option String × Option ℤ

/-- `key = (action.get("actionNumber"), action.get("timeActual"),
action.get("orderNumber"))`. -/
def actionKey (a : CdnAction) : ActionKey :=
(a.actionNumber, a.timeActual, a.orderNumber)

/-- Lookup in the `index_by_key` dict (association list with unique keys). -/
def assocLookup (k : ActionKey) : List (ActionKey × ℕ) → Option ℕ
| [] => none
| (k2, i) :: rest => if k2 = k then some i else assocLookup k rest

/-- The loop body of `_dedupe_actions`: `deduped` and `index_by_key` are the
accumulators, the first argument is the remaining input. -/
def dedupeLoop : List CdnAction → List CdnAction → List (ActionKey × ℕ) → List CdnAction
| [], deduped, _ => deduped
| a :: rest, deduped, idx =>
    match assocLookup (actionKey a) idx with
    | some i =>
        let existing := deduped.getD i default
        if a.edited && !existing.edited then dedupeLoop rest (deduped.set i a) idx
        else dedupeLoop rest deduped idx
    | none => dedupeLoop rest (deduped ++ [a]) (idx ++ [(actionKey a, deduped.length)])

/-- Embedding of `StatsNbaPbpWebLoader._dedupe_actions`
(`pbpstats/data_loader/stats_nba/pbp/web.py`, lines 347–365). -/
def dedupeActions (actions : List CdnAction) : List CdnAction :=
dedupeLoop actions [] []

/-- One replacement step: a later duplicate replaces the kept action iff it
carries the `edited` flag and the kept one does not. -/
def editStep (cur a : CdnAction) : CdnAction :=
if a.edited && !cur.edited then a else cur

/-- The action kept for a key: the first occurrence folded with `editStep`
over its later duplicates in order. -/
def groupKept (a : CdnAction) (dups : List CdnAction) : CdnAction :=
dups.foldl editStep a

/-- `keysContain ks k` is true when `k` occurs in `ks`. -/
def keysContain (ks : List ActionKey) (k : ActionKey) : Bool :=
ks.any (fun k2 => decide (k2 = k))

/-- Specification of deduplication, written from the claim: keep one action
per key in first-occurrence order; the kept action is the first occurrence
updated by `editStep` over its later duplicates. -/
def specDedupe : List CdnAction → List CdnAction
| [] => []
| a :: rest =>
    groupKept a (rest.filter (fun b => decide (actionKey b = actionKey a)))
    :: specDedupe (rest.filter (fun b => !(decide (actionKey b = actionKey a))))
termination_by l => l.length
decreasing_by
  exact Nat.lt_succ_of_le (List.length_filter_le _ _)

/-- Position of the first occurrence of `k` in a key list. -/
def keyIdx (k : ActionKey) : List ActionKey → Option ℕ
| [] => none
| k2 :: rest => if k2 = k then some 0 else (keyIdx k rest).map (· + 1)

theorem keyIdx_none_iff (k : ActionKey) (ks : List ActionKey) :
    keyIdx k ks = none ↔ k ∉ ks := by
  induction ks with
  | nil => simp [keyIdx]
  | cons k2 rest ih =>
      by_cases h : k2 = k
      · simp [keyIdx, h]
      · have h2 : ¬ k = k2 := fun he => h he.symm
        simp [keyIdx, h, ih, Option.map_eq_none, h2]

theorem keyIdx_some (k : ActionKey) (ks : List ActionKey) (i : ℕ)
    (h : keyIdx k ks = some i) : ∃ hi : i < ks.length, ks.get ⟨i, hi⟩ = k := by
  induction ks generalizing i with
  | nil => simp [keyIdx] at h
  | cons k2 rest ih =>
      by_cases h2 : k2 = k
      · simp [keyIdx, h2] at h
        subst h
        exact ⟨Nat.succ_pos _, h2⟩
      · simp [keyIdx, h2] at h
        rcases h with ⟨j, hj, rfl⟩
        rcases ih j hj with ⟨hlt, hget⟩
        exact ⟨Nat.succ_lt_succ hlt, hget⟩

theorem keyIdx_append_of_none (k : ActionKey) (ks : List ActionKey)
    (k2 : ActionKey) (h : keyIdx k ks = none) :
    keyIdx k (ks ++ [k2]) = if k2 = k then some ks.length else none := by
  induction ks with
  | nil => simp [keyIdx]
  | cons k3 rest ih =>
      by_cases h3 : k3 = k
      · simp [keyIdx, h3] at h
      · simp [keyIdx, h3] at h ⊢
        rw [ih h]
        by_cases hk : k2 = k <;> simp [hk]

theorem keyIdx_append_of_some (k : ActionKey) (ks : List ActionKey)
    (k2 : ActionKey) (i : ℕ) (h : keyIdx k ks = some i) :
    keyIdx k (ks ++ [k2]) = some i := by
  induction ks generalizing i with
  | nil => simp [keyIdx] at h
  | cons k3 rest ih =>
      by_cases h3 : k3 = k
      · simp [keyIdx, h3] at h ⊢
        exact h
      · simp [keyIdx, h3] at h ⊢
        rcases h with ⟨j, hj, rfl⟩
        exact ⟨j, ih j hj, rfl⟩

theorem assocLookup_append (k : ActionKey) (idx : List (ActionKey × ℕ))
    (p : ActionKey × ℕ) :
    assocLookup k (idx ++ [p])
      = match assocLookup k idx with
        | some i => some i
        | none => if p.1 = k then some p.2 else none := by
  induction idx with
  | nil => simp [assocLookup]
  | cons q rest ih =>
      by_cases hq : q.1 = k
      · simp [assocLookup, hq]
      · simp only [List.cons_append, assocLookup, hq, if_false]
        exact ih

theorem keysContain_iff (ks : List ActionKey) (k : ActionKey) :
    keysContain ks k = true ↔ k ∈ ks := by
  simp only [keysContain, List.any_eq_true, decide_eq_true_eq]
  constructor
  · rintro ⟨x, hx, rfl⟩; exact hx
  · intro h; exact ⟨k, h, rfl⟩

theorem keysContain_false (ks : List ActionKey) (k : ActionKey) (h : k ∉ ks) :
    keysContain ks k = false := by
  rw [Bool.eq_false_iff]
  intro hc
  exact h ((keysContain_iff ks k).mp hc)

theorem list_set_self {α : Type} (l : List α) (i : ℕ) (h : i < l.length) :
    l.set i l[i] = l := by
  apply List.ext_getElem (by simp)
  intro n h1 h2
  rcases eq_or_ne i n with rfl | hne
  · simp [List.getElem_set]
  · simp [List.getElem_set, hne]

/-- The loop of `_dedupe_actions` computes exactly the per-key fold: each
entry of the accumulator absorbs its later duplicates via `editStep`, and
actions with fresh keys are deduplicated by `specDedupe` and appended in
first-occurrence order. -/
theorem dedupeLoop_eq (pending : List CdnAction) :
    ∀ (deduped : List CdnAction) (idx : List (ActionKey × ℕ)),
    (deduped.map actionKey).Nodup →
    (∀ k, assocLookup k idx = keyIdx k (deduped.map actionKey)) →
    dedupeLoop pending deduped idx =
      deduped.map
        (fun d => groupKept d
          (pending.filter (fun x => decide (actionKey x = actionKey d))))
      ++ specDedupe
          (pending.filter
            (fun x => !(keysContain (deduped.map actionKey) (actionKey x)))) := by
  induction pending with
  | nil =>
      intro deduped idx _ _
      simp [dedupeLoop, specDedupe, groupKept]
  | cons a rest ih =>
      intro deduped idx hnd hidx
      rcases hki : keyIdx (actionKey a) (deduped.map actionKey) with _ | i
      · -- fresh key: appended to the accumulator
        have hmem : actionKey a ∉ deduped.map actionKey :=
          (keyIdx_none_iff _ _).mp hki
        have hlook : assocLookup (actionKey a) idx = none := by
          rw [hidx]; exact hki
        have hca : keysContain (deduped.map actionKey) (actionKey a) = false :=
          keysContain_false _ _ hmem
        have hnd2 : ((deduped ++ [a]).map actionKey).Nodup := by
          rw [List.map_append]
          refine List.nodup_append.mpr ⟨hnd, List.nodup_singleton _, ?_⟩
          intro x hx hx2
          simp only [List.map_cons, List.map_nil, List.mem_singleton] at hx2
          subst hx2
          exact hmem hx
        have hidx2 : ∀ k,
            assocLookup k (idx ++ [(actionKey a, deduped.length)])
              = keyIdx k ((deduped ++ [a]).map actionKey) := by
          intro k
          rw [List.map_append, assocLookup_append, hidx k]
          simp only [List.map_cons, List.map_nil]
          rcases hk2 : keyIdx k (deduped.map actionKey) with _ | j
          · rw [keyIdx_append_of_none _ _ _ hk2]
            simp [List.length_map]
          · rw [keyIdx_append_of_some _ _ _ _ hk2]
        have hstep : dedupeLoop (a :: rest) deduped idx
            = dedupeLoop rest (deduped ++ [a])
                (idx ++ [(actionKey a, deduped.length)]) := by
          simp only [dedupeLoop, hlook]
        rw [hstep, ih _ _ hnd2 hidx2]
        -- right-hand side: the new action heads the fresh-key block
        have hfa : (fun x => !(keysContain (deduped.map actionKey) (actionKey x)))
            a = true := by simp [hca]
        rw [List.filter_cons, if_pos hfa, specDedupe]
        -- old entries are unaffected by the fresh-keyed action
        have hmapold : ∀ d ∈ deduped,
            groupKept d (rest.filter (fun x => decide (actionKey x = actionKey d)))
              = groupKept d
                  ((a :: rest).filter
                    (fun x => decide (actionKey x = actionKey d))) := by
          intro d hd
          have hne : decide (actionKey a = actionKey d) = false := by
            simp only [decide_eq_false_iff_not]
            intro he
            exact hmem (he ▸ List.mem_map_of_mem actionKey hd)
          rw [List.filter_cons, if_neg (by simp [hne])]
        -- the duplicates of the fresh key inside the remaining fresh block
        have hdup :
            ((rest.filter
                (fun x => !(keysContain (deduped.map actionKey) (actionKey x)))).filter
              (fun b => decide (actionKey b = actionKey a)))
            = rest.filter (fun x => decide (actionKey x = actionKey a)) := by
          rw [List.filter_filter]
          refine List.filter_congr ?_
          intro x _
          by_cases hx : actionKey x = actionKey a
          · simp [hx, hca]
          · simp [hx]
        have htail :
            ((rest.filter
                (fun x => !(keysContain (deduped.map actionKey) (actionKey x)))).filter
              (fun b => !(decide (actionKey b = actionKey a))))
            = rest.filter
                (fun x => !(keysContain ((deduped ++ [a]).map actionKey)
                    (actionKey x))) := by
          rw [List.filter_filter]
          refine List.filter_congr ?_
          intro x _
          rw [List.map_append]
          simp only [keysContain, List.any_append, List.map_cons, List.map_nil,
            List.any_cons, List.any_nil, Bool.or_false, Bool.not_or]
          by_cases hx : actionKey x = actionKey a
          · simp [hx]
          · have hx2 : ¬ actionKey a = actionKey x := fun he => hx he.symm
            simp [hx, hx2, Bool.and_comm]
        rw [hdup, htail, List.map_append, List.map_congr_left hmapold]
        simp [List.append_assoc]
      · -- key already present at index i: in-place update
        rcases keyIdx_some _ _ _ hki with ⟨hilen, hget⟩
        have hilen2 : i < deduped.length := by
          simpa using hilen
        have hlook : assocLookup (actionKey a) idx = some i := by
          rw [hidx]; exact hki
        have hkeyi : actionKey (deduped[i]) = actionKey a := by
          have := hget
          simpa [List.get_eq_getElem, List.getElem_map] using this
        have hstep : dedupeLoop (a :: rest) deduped idx
            = dedupeLoop rest (deduped.set i (editStep (deduped[i]) a)) idx := by
          simp only [dedupeLoop, hlook]
          rw [List.getD_eq_getElem _ _ hilen2]
          by_cases hc : (a.edited && !(deduped[i]).edited) = true
          · simp [hc, editStep]
          · simp only [editStep, if_neg hc, list_set_self _ _ hilen2]
        have hkeyset : ((deduped.set i (editStep (deduped[i]) a)).map actionKey)
            = deduped.map actionKey := by
          rw [List.map_set]
          have heq : actionKey (editStep (deduped[i]) a) = actionKey a := by
            unfold editStep
            by_cases hc : (a.edited && !(deduped[i]).edited) = true
            · simp [hc]
            · simp only [if_neg hc]
              exact hkeyi
          rw [heq, ← hkeyi]
          have : (deduped.map actionKey)[i] = actionKey (deduped[i]) := by
            simp [List.getElem_map]
          rw [← this]
          exact list_set_self _ _ (by simpa using hilen2)
        have hnd2 : ((deduped.set i (editStep (deduped[i]) a)).map actionKey).Nodup := by
          rw [hkeyset]; exact hnd
        have hidx2 : ∀ k, assocLookup k idx
            = keyIdx k ((deduped.set i (editStep (deduped[i]) a)).map actionKey) := by
          intro k; rw [hkeyset]; exact hidx k
        rw [hstep, ih _ _ hnd2 hidx2, hkeyset]
        -- the already-present key is filtered out of the fresh-key block
        have hfa : (fun x => !(keysContain (deduped.map actionKey) (actionKey x)))
            a = false := by
          have : keysContain (deduped.map actionKey) (actionKey a) = true := by
            rw [keysContain_iff]
            rw [← hkeyi]
            exact List.mem_map_of_mem actionKey (List.getElem_mem _)
          simp [this]
        rw [List.filter_cons (p := fun x =>
          !(keysContain (deduped.map actionKey) (actionKey x))), if_neg (by simp [hfa])]
        -- elementwise comparison of the updated accumulator image
        congr 1
        apply List.ext_getElem (by simp)
        intro n h1 h2
        have hn : n < deduped.length := by simpa using h2
        rw [List.getElem_map, List.getElem_map]
        rcases eq_or_ne i n with rfl | hne
        · rw [List.getElem_set (by simpa using hn)]
          simp only [if_true]
          have hfilter : (a :: rest).filter
              (fun x => decide (actionKey x = actionKey (deduped[i]))) =
              a :: rest.filter
                (fun x => decide (actionKey x = actionKey (deduped[i]))) := by
            rw [List.filter_cons, if_pos (by simp [hkeyi])]
          have heq2 : actionKey (editStep (deduped[i]) a) = actionKey (deduped[i]) := by
            unfold editStep
            by_cases hc : (a.edited && !(deduped[i]).edited) = true
            · simp [hc, hkeyi]
            · simp only [if_neg hc]
          rw [heq2, hfilter]
          simp only [groupKept, List.foldl_cons]
        · rw [List.getElem_set_ne hne]
          have hkeymne : actionKey (deduped[n]) ≠ actionKey a := by
            intro he
            have h1f : ((deduped.map actionKey).get ⟨n, by simpa using hn⟩)
                = ((deduped.map actionKey).get ⟨i, by simpa using hilen2⟩) := by
              simp only [List.get_eq_getElem, List.getElem_map]
              rw [he, hkeyi]
            have := (hnd.get_inj_iff).mp h1f
            have hveq : n = i := by simpa using congrArg Fin.val this
            exact hne hveq.symm
          have hfilter : (a :: rest).filter
              (fun x => decide (actionKey x = actionKey (deduped[n]))) =
              rest.filter
                (fun x => decide (actionKey x = actionKey (deduped[n]))) := by
            rw [List.filter_cons, if_neg
              (by simp; exact fun he => hkeymne he.symm)]
          rw [hfilter]

/-- Claim C8: `_dedupe_actions` keeps at most one action per
`(actionNumber, timeActual, orderNumber)` key in first-occurrence order, and
the kept action for each key is its first occurrence, replaced by a later
duplicate exactly when that duplicate carries the `edited` flag and the
incumbent does not. -/
theorem C8_dedupe_theorem (actions : List CdnAction) :
    dedupeActions actions = specDedupe actions := by
  rw [dedupeActions, dedupeLoop_eq actions [] [] (by simp) (fun k => rfl)]
  simp [keysContain]

/-! ### Claim C1 — `StatsRebound.missed_shot` (stats_nba/rebound.py) -/

/-- Event classes distinguished by `isinstance` checks in
`StatsRebound.missed_shot` (each enhanced-pbp event is constructed by the
factory as exactly one of these classes). -/
inductive EvKind where
| fieldGoal : EvKind
| freeThrow : EvKind
| rebound : EvKind
| turnover : EvKind
| foul : EvKind
| violation : EvKind
| substitution : EvKind
| timeout : EvKind
| jumpBall : EvKind
| startOfPeriod : EvKind
| endOfPeriod : EvKind
| replay : EvKind
| other : EvKind
deriving DecidableEq, Repr

/-- The per-event fields that `missed_shot` reads.  `isMade` stands for the
event's `is_made` property and `isShotClockViolation` for the turnover
property of the same name.  `isRealRebound` models the `Rebound.is_real_rebound`
attribute: its definition lives in the base class
`pbpstats/resources/enhanced_pbp/rebound.py`, which is not among the provided
sources, so it is carried as an input attribute (the spec constrains but does
not define it, and `missed_shot` never reads it). -/
structure EvData where
  kind : EvKind
  isMade : Bool
  isShotClockViolation : Bool
  isRealRebound : Bool
deriving DecidableEq, Repr

/-- The `previous_event` chain of an event, nearest predecessor first; `[]`
models `previous_event is None`. -/
abbrev EvChain : Type := List EvData

/-- The `while isinstance(prev_event, (Substitution, Timeout))` walk inside
the JumpBall branch of `missed_shot`. -/
def skipSubsTimeouts : EvChain → EvChain
| [] => []
| e :: rest =>
    if decide (e.kind = EvKind.substitution) || decide (e.kind = EvKind.timeout) then
      skipSubsTimeouts rest
    else e :: rest

/-- Embedding of the `StatsRebound.missed_shot` property
(`pbpstats/resources/enhanced_pbp/stats_nba/rebound.py`, lines 51–84), as a
function of the rebound's `previous_event` chain (the property reads nothing
else).  `Except.error ()` models raising `EventOrderError`; a successful
access returns the Python value of `self._missed_shot` (an event together
with its own chain, or `none` for Python `None`). -/
def missedShot : EvChain → Except Unit (Option (EvData × EvChain))
| [] => Except.error ()
| prev :: rest =>
    if decide (prev.kind = EvKind.fieldGoal) || decide (prev.kind = EvKind.freeThrow) then
      if !prev.isMade then Except.ok (some (prev, rest)) else Except.error ()
    else if decide (prev.kind = EvKind.turnover) && prev.isShotClockViolation then
      if decide (prev.kind = EvKind.fieldGoal) then
        Except.ok (match rest with
          | [] => none
          | p2 :: r2 => some (p2, r2))
      else Except.error ()
    else if decide (prev.kind = EvKind.jumpBall) then
      match skipSubsTimeouts rest with
      | p :: r =>
          if decide (p.kind = EvKind.fieldGoal) || decide (p.kind = EvKind.freeThrow) then
            Except.ok (some (p, r))
          else Except.error ()
      | [] => Except.error ()
    else Except.error ()

/-- True when accessing `missed_shot` resolves (does not raise
`EventOrderError`). -/
def missedShotResolves (hist : EvChain) : Bool :=
match missedShot hist with
| Except.ok _ => true
| Except.error _ => false

/-- The predecessor shapes for which `missed_shot` actually resolves, written
from the amended claim: an immediately preceding missed FieldGoal or missed
FreeThrow, or a JumpBall behind which (skipping contiguous Substitution and
Timeout events) there is a FieldGoal or FreeThrow.  The shot-clock-violation
Turnover shape of the original claim is absent: that code path requires the
Turnover to also be a FieldGoal instance, which never holds, so it raises. -/
def allowedPredecessorAmended : EvChain → Prop
| [] => False
| prev :: rest =>
    ((prev.kind = EvKind.fieldGoal ∨ prev.kind = EvKind.freeThrow) ∧ prev.isMade = false)
    ∨ (prev.kind = EvKind.jumpBall ∧
        match rest.dropWhile
            (fun e => decide (e.kind = EvKind.substitution)
              || decide (e.kind = EvKind.timeout)) with
        | [] => False
        | p :: _ => p.kind = EvKind.fieldGoal ∨ p.kind = EvKind.freeThrow)

theorem skipSubsTimeouts_eq_dropWhile (l : EvChain) :
    skipSubsTimeouts l
      = l.dropWhile (fun e => decide (e.kind = EvKind.substitution)
          || decide (e.kind = EvKind.timeout)) := by
  induction l with
  | nil => rfl
  | cons e rest ih =>
      rw [skipSubsTimeouts, List.dropWhile_cons]
      by_cases h : (decide (e.kind = EvKind.substitution)
          || decide (e.kind = EvKind.timeout)) = true
      · rw [if_pos h, if_pos h, ih]
      · rw [if_neg h, if_neg h]

/-- Claim C1 (amended): for every rebound with `is_real_rebound`, accessing
`missed_shot` resolves exactly when the immediately preceding event is a
missed FieldGoal or missed FreeThrow, or a JumpBall behind which (skipping
contiguous Substitutions and Timeouts) there is a FieldGoal or FreeThrow;
every other predecessor — including a shot-clock-violation Turnover — makes
it raise `EventOrderError`.  (`missed_shot` reads only the predecessor
chain, so the rebound's own attributes appear only as hypotheses.) -/
theorem C1_missed_shot_theorem (reb : EvData) (hist : EvChain)
    (_hkind : reb.kind = EvKind.rebound) (_hreal : reb.isRealRebound = true) :
    missedShotResolves hist = true ↔ allowedPredecessorAmended hist := by
  cases hist with
  | nil => simp [missedShotResolves, missedShot, allowedPredecessorAmended]
  | cons prev rest =>
      simp only [missedShotResolves, missedShot, allowedPredecessorAmended,
        ← skipSubsTimeouts_eq_dropWhile]
      cases hk : prev.kind
      case fieldGoal => cases hm : prev.isMade <;> simp [hk, hm]
      case freeThrow => cases hm : prev.isMade <;> simp [hk, hm]
      case turnover => cases hv : prev.isShotClockViolation <;> simp [hk, hv]
      case jumpBall =>
        rcases hd : skipSubsTimeouts rest with _ | ⟨p, r⟩
        · simp [hk, hd]
        · by_cases hp1 : p.kind = EvKind.fieldGoal
          · simp [hk, hd, hp1]
          · by_cases hp2 : p.kind = EvKind.freeThrow <;> simp [hk, hd, hp1, hp2]
      all_goals simp [hk]

/-- A missed field goal predecessor used by the C1 witness. -/
def fgMissD : EvData := ⟨EvKind.fieldGoal, false, false, false⟩

/-- A real rebound event used by the C1 witness and counterexample. -/
def realRebD : EvData := ⟨EvKind.rebound, false, false, true⟩

theorem C1_missed_shot_witness :
    realRebD.kind = EvKind.rebound ∧ realRebD.isRealRebound = true
    ∧ (missedShotResolves [fgMissD] = true ↔ allowedPredecessorAmended [fgMissD]) :=
  ⟨rfl, rfl, C1_missed_shot_theorem realRebD [fgMissD] rfl rfl⟩

/-- A shot-clock-violation turnover predecessor. -/
def scTurnoverD : EvData := ⟨EvKind.turnover, false, true, false⟩

/-- Counterexample to claim C1 as stated: a real rebound whose predecessor is
a shot-clock-violation Turnover with a missed FieldGoal behind it — one of
the claim's allowed shapes — still raises `EventOrderError`, because the
branch guarding that shape additionally requires the Turnover to be a
FieldGoal instance. -/
theorem C1_missed_shot_counterexample :
    realRebD.kind = EvKind.rebound ∧ realRebD.isRealRebound = true
    ∧ scTurnoverD.kind = EvKind.turnover
    ∧ scTurnoverD.isShotClockViolation = true
    ∧ fgMissD.kind = EvKind.fieldGoal ∧ fgMissD.isMade = false
    ∧ missedShotResolves [scTurnoverD, fgMissD] = false := by
  refine ⟨rfl, rfl, rfl, rfl, rfl, rfl, ?_⟩
  rfl

/-! ### Claim C3 — fouls-to-give in `_add_extra_attrs_to_all_events`
(nba_enhanced_pbp_loader.py).  The embedding models the `fouls_to_give`
defaultdict and the per-event snapshots; the other effects of the sweep
(prev/next links, score, player fouls, overrides) live in separate variables
and never influence `fouls_to_give`. -/

/-- The per-event fields the fouls-to-give logic reads. -/
structure LoaderEvent where
  isStartOfPeriod : Bool
  period : ℤ
  secondsRemaining : ℚ
  isFoul : Bool
  countsTowardsPenalty : Bool
  teamId : ℤ
deriving DecidableEq, Repr

/-- A `defaultdict(lambda: dflt)` over team ids: default value plus entries
in insertion order. -/
structure FoulsState where
  dflt : ℤ
  entries : List (ℤ × ℤ)
deriving DecidableEq, Repr

def entriesFind (t : ℤ) : List (ℤ × ℤ) → Option ℤ
| [] => none
| (t2, v) :: rest => if t2 = t then some v else entriesFind t rest

def entriesSet (t : ℤ) (v : ℤ) : List (ℤ × ℤ) → List (ℤ × ℤ)
| [] => []
| (t2, v2) :: rest => if t2 = t then (t2, v) :: rest else (t2, v2) :: entriesSet t v rest

/-- Python `d[t] = v` (overwrite if present, append otherwise). -/
def entriesStore (t v : ℤ) (l : List (ℤ × ℤ)) : List (ℤ × ℤ) :=
if (entriesFind t l).isSome then entriesSet t v l else l ++ [(t, v)]

/-- `defaultdict` item access: returns the stored value, inserting the
default when the key is absent. -/
def ftgGet (s : FoulsState) (t : ℤ) : ℤ × FoulsState :=
match entriesFind t s.entries with
| some v => (v, s)
| none => (s.dflt, ⟨s.dflt, s.entries ++ [(t, s.dflt)]⟩)

/-- The two-minute branch (loader lines 58–70): no team yet → fresh default-1
dict; one team → keep its clamped value with default 1; two or more teams →
clamp each stored value, leaving the default untouched. -/
def clampTwoMinutes (s : FoulsState) : FoulsState :=
match s.entries with
| [] => ⟨1, []⟩
| [(t, v)] => ⟨1, [(t, min v 1)]⟩
| _ => ⟨s.dflt, s.entries.map (fun p => (p.1, min p.2 1))⟩

/-- The Foul branch restricted to `fouls_to_give` (loader lines 71–73): the
item access in the guard inserts the team, and the decrement fires only while
the value is positive. -/
def foulStep (ev : LoaderEvent) (s : FoulsState) : FoulsState :=
if ev.isFoul then
  if ev.countsTowardsPenalty then
    let gs := ftgGet s ev.teamId
    if 0 < gs.1 then ⟨gs.2.dflt, entriesStore ev.teamId (gs.1 - 1) gs.2.entries⟩
    else gs.2
  else s
else s

/-- Processing of one event at index `i` of `n` (period reset, two-minute
clamp, foul decrement); the result is the state attached to the event as its
`fouls_to_give` snapshot. -/
def stepFouls (n i : ℕ) (ev : LoaderEvent) (s : FoulsState) : FoulsState :=
let s0 :=
  if i == 0 && i == n - 1 then s
  else if ev.isStartOfPeriod || i == 0 then
    (if decide (ev.period ≤ 4) then (⟨4, []⟩ : FoulsState) else ⟨3, []⟩)
  else s
let s1 := if decide (ev.secondsRemaining ≤ 120) then clampTwoMinutes s0 else s0
foulStep ev s1

def foulsSweepAux (n : ℕ) : ℕ → FoulsState → List LoaderEvent → List FoulsState
| _, _, [] => []
| i, s, ev :: rest => stepFouls n i ev s :: foulsSweepAux n (i + 1) (stepFouls n i ev s) rest

/-- The `fouls_to_give` snapshots attached to the events by
`_add_extra_attrs_to_all_events`, in order (initial state
`defaultdict(lambda: 4)`, loader line 37). -/
def foulsSweep (evs : List LoaderEvent) : List FoulsState :=
foulsSweepAux evs.length 0 ⟨4, []⟩ evs

/-- Looking a team up in an attached snapshot (a `defaultdict` copy: stored
value if present, else the default). -/
def snapLookup (s : FoulsState) (t : ℤ) : ℤ :=
(entriesFind t s.entries).getD s.dflt

/-- The state threaded through the sweep after a list of events. -/
def stateAfter (n : ℕ) : ℕ → FoulsState → List LoaderEvent → FoulsState
| _, s, [] => s
| i, s, ev :: rest => stateAfter n (i + 1) (stepFouls n i ev s) rest

/-- The snapshot attached to the event at index `i`. -/
def snapshotAt (evs : List LoaderEvent) (i : ℕ) : FoulsState :=
(foulsSweep evs).getD i ⟨4, []⟩

theorem foulsSweepAux_append (n : ℕ) (l1 l2 : List LoaderEvent) :
    ∀ (i : ℕ) (s : FoulsState),
    foulsSweepAux n i s (l1 ++ l2)
      = foulsSweepAux n i s l1 ++ foulsSweepAux n (i + l1.length) (stateAfter n i s l1) l2 := by
  induction l1 with
  | nil => intro i s; simp [foulsSweepAux, stateAfter]
  | cons ev rest ih =>
      intro i s
      simp only [List.cons_append, foulsSweepAux, stateAfter, List.length_cons,
        List.append_eq]
      rw [ih]
      have h2 : i + 1 + rest.length = i + (rest.length + 1) := by omega
      rw [h2]

theorem foulsSweepAux_length (n : ℕ) (l : List LoaderEvent) :
    ∀ (i : ℕ) (s : FoulsState), (foulsSweepAux n i s l).length = l.length := by
  induction l with
  | nil => intro i s; rfl
  | cons ev rest ih => intro i s; simp [foulsSweepAux, ih]

/-- The snapshot at position `|pre|` of `pre ++ ev :: post` is the step
applied to the state accumulated over `pre`. -/
theorem snapshotAt_eq (pre post : List LoaderEvent) (ev : LoaderEvent) :
    snapshotAt (pre ++ ev :: post) pre.length
      = stepFouls (pre ++ ev :: post).length pre.length ev
          (stateAfter (pre ++ ev :: post).length 0 ⟨4, []⟩ pre) := by
  unfold snapshotAt foulsSweep
  rw [foulsSweepAux_append]
  rw [List.getD_eq_getElem _ _ (by
    simp [foulsSweepAux_length, List.length_append])]
  rw [List.getElem_append_right (by simp [foulsSweepAux_length])]
  simp [foulsSweepAux_length, foulsSweepAux]

theorem clampTwoMinutes_entries_le (s : FoulsState) :
    ∀ p ∈ (clampTwoMinutes s).entries, p.2 ≤ 1 := by
  rcases s with ⟨d, entries⟩
  rcases entries with _ | ⟨⟨t, v⟩, rest⟩
  · simp [clampTwoMinutes]
  · rcases rest with _ | ⟨q, rest2⟩
    · intro p hp
      simp only [clampTwoMinutes, List.mem_singleton] at hp
      subst hp
      exact min_le_right _ _
    · intro p hp
      simp only [clampTwoMinutes, List.map_cons, List.mem_cons, List.mem_map] at hp
      rcases hp with rfl | (rfl | ⟨q2, _, rfl⟩) <;> exact min_le_right _ _

theorem clampTwoMinutes_dflt (s : FoulsState)
    (h : (clampTwoMinutes s).entries.length ≤ 1) : (clampTwoMinutes s).dflt = 1 := by
  rcases s with ⟨d, entries⟩
  rcases entries with _ | ⟨⟨t, v⟩, rest⟩
  · simp [clampTwoMinutes]
  · rcases rest with _ | ⟨q, rest2⟩
    · simp [clampTwoMinutes]
    · simp [clampTwoMinutes] at h

theorem entriesFind_mem (t v : ℤ) (l : List (ℤ × ℤ))
    (hf : entriesFind t l = some v) : (t, v) ∈ l := by
  induction l with
  | nil => simp [entriesFind] at hf
  | cons q rest ih =>
      rcases q with ⟨t2, v2⟩
      by_cases ht : t2 = t
      · simp only [entriesFind, if_pos ht, Option.some.injEq] at hf
        subst hf; subst ht
        exact List.mem_cons_self _ _
      · simp only [entriesFind, if_neg ht] at hf
        exact List.mem_cons_of_mem _ (ih hf)

theorem clamp_lookup_le (s : FoulsState)
    (hlen : (clampTwoMinutes s).entries.length ≤ 1) (t : ℤ) :
    snapLookup (clampTwoMinutes s) t ≤ 1 := by
  have hd := clampTwoMinutes_dflt _ hlen
  unfold snapLookup
  rcases hf : entriesFind t (clampTwoMinutes s).entries with _ | v
  · simp [hd]
  · simp only [Option.getD_some]
    exact clampTwoMinutes_entries_le _ _ (entriesFind_mem _ _ _ hf)

/-- Claim C3 (amended): the loader resets `fouls_to_give` on every
`StartOfPeriod` event to an empty mapping with default 4 in regulation
(period ≤ 4) and 3 in overtime; and on every event inside the final two
minutes (`seconds_remaining ≤ 120`, stated here for non-Foul events so the
snapshot is the clamped state itself) every tracked team's value is clamped
to at most 1, with the default reset to 1 — so that lookups of teams not yet
tracked also give at most 1 — only while fewer than two teams are tracked;
when two or more teams are tracked only their stored values are clamped and
the default keeps the period value. -/
theorem C3_fouls_theorem (pre post : List LoaderEvent) (ev : LoaderEvent)
    (evs : List LoaderEvent) (heq : evs = pre ++ ev :: post) :
    (2 ≤ evs.length → ev.isStartOfPeriod = true → ¬(ev.secondsRemaining ≤ 120) →
      ev.isFoul = false →
      snapshotAt evs pre.length
        = if decide (ev.period ≤ 4) then (⟨4, []⟩ : FoulsState) else ⟨3, []⟩)
    ∧ (ev.secondsRemaining ≤ 120 → ev.isFoul = false →
      (∀ p ∈ (snapshotAt evs pre.length).entries, p.2 ≤ 1)
      ∧ ((snapshotAt evs pre.length).entries.length ≤ 1 →
          ∀ t, snapLookup (snapshotAt evs pre.length) t ≤ 1)) := by
  subst heq
  rw [snapshotAt_eq]
  constructor
  · intro hlen hstart hsec hfoul
    by_cases hc : (pre.length == 0 && pre.length == (pre ++ ev :: post).length - 1) = true
    · exfalso
      have h1 : pre.length = 0 ∧ pre.length = (pre ++ ev :: post).length - 1 := by
        simpa using hc
      have h2 := h1.1
      have h3 := h1.2
      simp only [List.length_append, List.length_cons] at h3 hlen
      omega
    · rw [Bool.not_eq_true] at hc
      simp only [stepFouls, foulStep, hc, hstart, hfoul, hsec]
      simp [hsec]
  · intro hsec hfoul
    simp only [stepFouls, foulStep, hfoul, Bool.false_eq_true, if_false,
      decide_eq_true_eq, if_pos hsec]
    exact ⟨clampTwoMinutes_entries_le _, fun hlen t => clamp_lookup_le _ hlen t⟩

/-- A regulation StartOfPeriod event (period 1, 12:00). -/
def evStartP1 : LoaderEvent := ⟨true, 1, 720, false, false, 0⟩

/-- A penalty foul by team 1 at 5:00. -/
def evFoulT1 : LoaderEvent := ⟨false, 1, 300, true, true, 1⟩

/-- A penalty foul by team 2 at 3:20. -/
def evFoulT2 : LoaderEvent := ⟨false, 1, 200, true, true, 2⟩

/-- A neutral event inside the final two minutes (1:40). -/
def evLate : LoaderEvent := ⟨false, 1, 100, false, false, 0⟩

def c3Events : List LoaderEvent := [evStartP1, evFoulT1, evFoulT2, evLate]

def c3WEvents : List LoaderEvent := [evStartP1, evLate]

theorem C3_fouls_witness :
    (∀ p ∈ (snapshotAt c3WEvents 1).entries, p.2 ≤ 1)
    ∧ ((snapshotAt c3WEvents 1).entries.length ≤ 1 →
        ∀ t, snapLookup (snapshotAt c3WEvents 1) t ≤ 1) :=
  (C3_fouls_theorem [evStartP1] [] evLate c3WEvents rfl).2 (by decide) rfl

/-- Counterexample to claim C3 as stated: after fouls by two teams, an event
inside the final two minutes clamps both stored entries to 1 but leaves the
defaultdict's default at the period value 4, so a team not yet present in the
mapping resolves to 4, not 1. -/
theorem C3_fouls_counterexample :
    (c3Events.getD 3 evLate).secondsRemaining ≤ 120
    ∧ snapLookup (snapshotAt c3Events 3) 3 = 4
    ∧ ¬ snapLookup (snapshotAt c3Events 3) 3 ≤ 1 := by
  refine ⟨by decide, by decide, by decide⟩

/-! ### Claim C2 — `_annotate_period_shot_clock` (shot_clock.py lines 264–325)

The claim is about the display value assigned inside the per-period loop.
The post-event reset rule `_update_shot_clock_after_event` (lines 328–422) is
a separate helper whose return value only seeds the next iteration, so it is
taken here as an arbitrary function parameter `update`: the theorems below
hold for every such rule, in particular for the source's.  `full` is
`cfg.full_reset`, always `24.0` in `annotate_shot_clock`. -/

/-- The per-event fields the annotate loop reads (`isinstance` checks for
`StartOfPeriod` and `Turnover` are by `kind`). -/
structure ScEvent where
  kind : EvKind
  secondsRemaining : Option ℚ
  isShotClockViolation : Bool
deriving DecidableEq, Repr

/-- Step 1 of the loop: the shot-clock state at the start of the event.  The
loop-local `previous_event` together with its state is `pi` (`none` on the
first iteration).  A fresh period or `StartOfPeriod` gives `full`; otherwise
the state decays by the clock difference, floored at 0.  (The source's
`if shot_clock_state is None` inside the else-branch is unreachable: the
state is set on every iteration.) -/
def scDecayedState (full : ℚ) (pi : Option (ℚ × ScEvent)) (ev : ScEvent) : ℚ :=
match pi with
| none => full
| some (st, prev) =>
    if decide (ev.kind = EvKind.startOfPeriod) then full
    else
      max (st - (match prev.secondsRemaining, ev.secondsRemaining with
        | some p, some c => max (p - c) 0
        | _, _ => 0)) 0

/-- Step 2: the display value (clamped by full reset and the game clock). -/
def scDisplay (full st : ℚ) (ev : ScEvent) : ℚ :=
match ev.secondsRemaining with
| some s => min (max 0 (min full st)) s
| none => max 0 (min full st)

/-- The value stored into `ev.shot_clock`: the rounded display, overridden to
exactly `0.0` on a shot-clock-violation turnover. -/
def scAssigned (full st : ℚ) (ev : ScEvent) : ℚ :=
if decide (ev.kind = EvKind.turnover) && ev.isShotClockViolation then 0
else roundTenth (scDisplay full st ev)

/-- The annotate loop: emits each event's assigned `shot_clock` and threads
`update ev state` into the next iteration. -/
def annotateAux (update : ScEvent → ℚ → ℚ) (full : ℚ) :
    Option (ℚ × ScEvent) → List ScEvent → List ℚ
| _, [] => []
| pi, ev :: rest =>
    scAssigned full (scDecayedState full pi ev) ev
    :: annotateAux update full (some (update ev (scDecayedState full pi ev), ev)) rest

/-- Embedding of `_annotate_period_shot_clock`: the list of `shot_clock`
values assigned to the period's events, in order. -/
def annotatePeriodShotClock (update : ScEvent → ℚ → ℚ) (full : ℚ)
    (evs : List ScEvent) : List ℚ :=
annotateAux update full none evs

/-- The loop state (`shot_clock_state`, `previous_event`) after a prefix. -/
def scThread (update : ScEvent → ℚ → ℚ) (full : ℚ) :
    Option (ℚ × ScEvent) → List ScEvent → Option (ℚ × ScEvent)
| pi, [] => pi
| pi, ev :: rest => scThread update full (some (update ev (scDecayedState full pi ev), ev)) rest

theorem annotateAux_append (update : ScEvent → ℚ → ℚ) (full : ℚ)
    (l1 l2 : List ScEvent) : ∀ pi,
    annotateAux update full pi (l1 ++ l2)
      = annotateAux update full pi l1
        ++ annotateAux update full (scThread update full pi l1) l2 := by
  induction l1 with
  | nil => intro pi; simp [annotateAux, scThread]
  | cons ev rest ih =>
      intro pi
      simp only [List.cons_append, annotateAux, scThread, List.append_eq]
      rw [ih]

theorem annotateAux_length (update : ScEvent → ℚ → ℚ) (full : ℚ)
    (l : List ScEvent) : ∀ pi, (annotateAux update full pi l).length = l.length := by
  induction l with
  | nil => intro pi; rfl
  | cons ev rest ih => intro pi; simp [annotateAux, ih]

theorem annotate_getD (update : ScEvent → ℚ → ℚ) (full : ℚ)
    (pre post : List ScEvent) (ev : ScEvent) :
    (annotatePeriodShotClock update full (pre ++ ev :: post)).getD pre.length 0
      = scAssigned full (scDecayedState full (scThread update full none pre) ev) ev := by
  unfold annotatePeriodShotClock
  rw [annotateAux_append]
  rw [List.getD_eq_getElem _ _ (by simp [annotateAux_length])]
  rw [List.getElem_append_right (by simp [annotateAux_length])]
  simp [annotateAux_length, annotateAux]

theorem roundHalfEven_mono {x y : ℚ} (h : x ≤ y) :
    roundHalfEven x ≤ roundHalfEven y := by
  unfold roundHalfEven
  have hfx : ⌊x⌋ ≤ ⌊y⌋ := Int.floor_le_floor h
  rcases lt_or_le ⌊x⌋ ⌊y⌋ with hlt | hle
  · have hx_ub : (if x - ⌊x⌋ < 1/2 then ⌊x⌋
        else if 1/2 < x - ⌊x⌋ then ⌊x⌋ + 1
        else if ⌊x⌋ % 2 = 0 then ⌊x⌋ else ⌊x⌋ + 1) ≤ ⌊x⌋ + 1 := by
      split_ifs <;> omega
    have hy_lb : ⌊y⌋ ≤ (if y - ⌊y⌋ < 1/2 then ⌊y⌋
        else if 1/2 < y - ⌊y⌋ then ⌊y⌋ + 1
        else if ⌊y⌋ % 2 = 0 then ⌊y⌋ else ⌊y⌋ + 1) := by
      split_ifs <;> omega
    omega
  · have heq : ⌊x⌋ = ⌊y⌋ := le_antisymm hfx hle
    rw [heq]
    split_ifs <;> first | omega | (exfalso; linarith)

theorem roundTenth_mono {x y : ℚ} (h : x ≤ y) : roundTenth x ≤ roundTenth y := by
  unfold roundTenth
  have h10 : x * 10 ≤ y * 10 := by linarith
  have := roundHalfEven_mono h10
  have hcast : ((roundHalfEven (x * 10) : ℤ) : ℚ) ≤ ((roundHalfEven (y * 10) : ℤ) : ℚ) := by
    exact_mod_cast this
  linarith

theorem roundTenth_zero : roundTenth 0 = 0 := by
  rw [roundTenth_eq_self_of_tenth 0 0 (by norm_num)]

theorem roundTenth_24 : roundTenth 24 = 24 := by
  rw [roundTenth_eq_self_of_tenth 24 240 (by norm_num)]

theorem roundTenth_14 : roundTenth 14 = 14 := by
  rw [roundTenth_eq_self_of_tenth 14 140 (by norm_num)]

theorem roundTenth_natDiv10 (n : ℕ) : roundTenth ((n : ℚ) / 10) = (n : ℚ) / 10 := by
  rw [roundTenth_eq_self_of_tenth _ (n : ℤ) (by push_cast; field_simp)]

theorem scDecayedState_nonneg (full : ℚ) (hfull : 0 ≤ full)
    (pi : Option (ℚ × ScEvent)) (ev : ScEvent) :
    0 ≤ scDecayedState full pi ev := by
  rcases pi with _ | ⟨st, prev⟩
  · exact hfull
  · unfold scDecayedState
    split_ifs
    · exact hfull
    · exact le_max_right _ _

/-- Claim C2 (amended): within a period, each event's assigned `shot_clock`
equals `round(min(state, min(24, seconds_remaining)), 1)` — except that a
shot-clock-violation Turnover is assigned exactly `0.0` — where `state` is
the decayed shot-clock state at the event; and when the event's
`seconds_remaining` is a nonnegative multiple of 0.1 the assigned value lies
in `[0.0, 24.0]` and never exceeds that `seconds_remaining`.  Universally
quantified over the post-event reset rule `update`. -/
theorem C2_shot_clock_theorem (update : ScEvent → ℚ → ℚ)
    (pre post : List ScEvent) (ev : ScEvent) (evs : List ScEvent)
    (heq : evs = pre ++ ev :: post) (n : ℕ)
    (hsec : ev.secondsRemaining = some ((n : ℚ) / 10)) :
    (annotatePeriodShotClock update 24 evs).getD pre.length 0
      = (if decide (ev.kind = EvKind.turnover) && ev.isShotClockViolation then 0
         else roundTenth (min (scDecayedState 24 (scThread update 24 none pre) ev)
            (min 24 ((n : ℚ) / 10))))
    ∧ 0 ≤ (annotatePeriodShotClock update 24 evs).getD pre.length 0
    ∧ (annotatePeriodShotClock update 24 evs).getD pre.length 0 ≤ 24
    ∧ (annotatePeriodShotClock update 24 evs).getD pre.length 0 ≤ (n : ℚ) / 10 := by
  subst heq
  rw [annotate_getD]
  have hq0 : (0 : ℚ) ≤ (n : ℚ) / 10 := by positivity
  have hst := scDecayedState_nonneg 24 (by norm_num) (scThread update 24 none pre) ev
  set st := scDecayedState 24 (scThread update 24 none pre) ev with hstdef
  have hdisp : scDisplay 24 st ev = min st (min 24 ((n : ℚ) / 10)) := by
    unfold scDisplay
    rw [hsec]
    have hmax : max 0 (min 24 st) = min 24 st := by
      rw [max_eq_right]
      exact le_min (by norm_num) hst
    show min (max 0 (min 24 st)) ((n : ℚ) / 10) = min st (min 24 ((n : ℚ) / 10))
    rw [hmax, min_assoc, min_left_comm]
  unfold scAssigned
  by_cases hv : (decide (ev.kind = EvKind.turnover) && ev.isShotClockViolation) = true
  · rw [if_pos hv, if_pos hv]
    refine ⟨rfl, le_refl _, by norm_num, hq0⟩
  · rw [if_neg hv, if_neg hv, hdisp]
    have hd0 : (0 : ℚ) ≤ min st (min 24 ((n : ℚ) / 10)) :=
      le_min hst (le_min (by norm_num) hq0)
    have hd24 : min st (min 24 ((n : ℚ) / 10)) ≤ 24 :=
      le_trans (min_le_right _ _) (min_le_left _ _)
    have hdsec : min st (min 24 ((n : ℚ) / 10)) ≤ (n : ℚ) / 10 :=
      le_trans (min_le_right _ _) (min_le_right _ _)
    refine ⟨rfl, ?_, ?_, ?_⟩
    · have := roundTenth_mono hd0
      rwa [roundTenth_zero] at this
    · have := roundTenth_mono hd24
      rwa [roundTenth_24] at this
    · have := roundTenth_mono hdsec
      rwa [roundTenth_natDiv10] at this

/-- Start-of-period event at 12:00, for the C2 witness and counterexample. -/
def c2e1 : ScEvent := ⟨EvKind.startOfPeriod, some 720, false⟩

/-- Shot-clock-violation turnover ten seconds later. -/
def c2e2 : ScEvent := ⟨EvKind.turnover, some 710, true⟩

theorem C2_shot_clock_witness :
    0 ≤ (annotatePeriodShotClock (fun _ st => st) 24 [c2e1, c2e2]).getD 1 0
    ∧ (annotatePeriodShotClock (fun _ st => st) 24 [c2e1, c2e2]).getD 1 0 ≤ 24
    ∧ (annotatePeriodShotClock (fun _ st => st) 24 [c2e1, c2e2]).getD 1 0 ≤ (7100 : ℚ) / 10 :=
  (C2_shot_clock_theorem (fun _ st => st) [c2e1] [] c2e2 [c2e1, c2e2] rfl 7100
    (by norm_num [c2e2])).2

/-- Counterexample to claim C2 as stated: on a shot-clock-violation turnover
the loop overrides the rounded display value with `0.0`; here the claimed
formula gives `14.0` (state decayed from 24 by 10 seconds) but the assigned
value is `0.0`. -/
theorem C2_shot_clock_counterexample :
    annotatePeriodShotClock (fun _ _ => 24) 24 [c2e1, c2e2] = [24, 0]
    ∧ roundTenth (min (scDecayedState 24 (some (24, c2e1)) c2e2) (min 24 710)) = 14
    ∧ (0 : ℚ) ≠ 14 := by
  have hstate : scDecayedState 24 (some (24, c2e1)) c2e2 = 14 := by
    simp only [scDecayedState, c2e1, c2e2]
    rw [if_neg (by decide)]
    norm_num
  refine ⟨?_, ?_, by norm_num⟩
  · simp only [annotatePeriodShotClock, annotateAux, scAssigned, scDecayedState,
      scDisplay, c2e1, c2e2, hstate]
    norm_num [roundTenth_24, roundTenth_14, min_def, max_def]
  · rw [hstate]
    norm_num [min_def, roundTenth_14]

/-! ### Claim C4 — `PbpProcessor._fix_event_order` (offline/processor.py)

The offending `event_num` is parsed out of the exception message (lines
119–123); the embedding takes it as the integer input `eventNum` and models
the rest of the function.  `FixResult.reraise` models re-raising the
`EventOrderError`; `fixed rows` models mutating `self.data` and returning. -/

/-- The raw-row fields `_fix_event_order` reads. -/
structure PbpRow where
  eventnum : Option ℤ
  eventmsgtype : Option ℤ
  period : Option ℤ
  player1Id : Option ℤ
deriving DecidableEq, Repr, Inhabited

inductive FixResult where
| fixed : List PbpRow → FixResult
| reraise : FixResult
deriving DecidableEq, Repr

/-- `et(idx)`: the row's EVENTMSGTYPE, `None` when out of range. -/
def rowEt (rows : List PbpRow) (i : ℕ) : Option ℤ :=
match rows.get? i with
| some r => r.eventmsgtype
| none => none

/-- `en(idx)`: the row's EVENTNUM, `None` when out of range. -/
def rowEn (rows : List PbpRow) (i : ℕ) : Option ℤ :=
match rows.get? i with
| some r => r.eventnum
| none => none

/-- The backwards walk of pattern 1 (`while row_index >= 0 and
et(row_index) in (8, 9): row_index -= 1`); `none` models reaching `-1`. -/
def walkBack (rows : List PbpRow) : ℕ → Option ℕ
| 0 =>
    if decide (rowEt rows 0 = some 8) || decide (rowEt rows 0 = some 9) then none
    else some 0
| i + 1 =>
    if decide (rowEt rows (i + 1) = some 8) || decide (rowEt rows (i + 1) = some 9) then
      walkBack rows i
    else some (i + 1)

/-- The rebuild loop of pattern 1: pull the free-throw row out and put it
right after the offending row. -/
def p1Loop (ftEn : Option ℤ) (en0 : ℤ) :
    List PbpRow → List PbpRow → Option PbpRow → List PbpRow × Option PbpRow
| [], acc, rtm => (acc, rtm)
| row :: rest, acc, rtm =>
    if decide (row.eventnum = ftEn) then p1Loop ftEn en0 rest acc (some row)
    else if decide (row.eventnum = some en0) then
      match rtm with
      | some m => p1Loop ftEn en0 rest (acc ++ [row, m]) rtm
      | none => p1Loop ftEn en0 rest (acc ++ [row]) rtm
    else p1Loop ftEn en0 rest (acc ++ [row]) rtm

/-- Pattern 1: offending event is a substitution/timeout (type 8/9). -/
def pattern1Fix (rows : List PbpRow) (issue : ℕ) (eventNum : ℤ) : Option (List PbpRow) :=
if decide (rowEt rows issue = some 8) || decide (rowEt rows issue = some 9) then
  match walkBack rows issue with
  | some ri =>
      let res := p1Loop (rowEn rows ri) eventNum rows [] none
      if res.2.isSome then some res.1 else none
  | none => none
else none

/-- Swap the adjacent rows at positions `i` and `i+1`. -/
def swapAdj (rows : List PbpRow) (i : ℕ) : List PbpRow :=
(rows.set i (rows.getD (i + 1) default)).set (i + 1) (rows.getD i default)

/-- Pattern 2: instant replay (type 18) directly before a rebound. -/
def pattern2Fix (rows : List PbpRow) (issue : ℕ) : Option (List PbpRow) :=
if decide (rowEt rows issue = some 18) && decide (issue + 1 < rows.length)
    && decide (rowEt rows (issue + 1) = some 4) then
  some (swapAdj rows issue)
else none

/-- Pattern 3: the next row is the rebound with `event_num - 1`; swap. -/
def pattern3Fix (rows : List PbpRow) (issue : ℕ) (eventNum : ℤ) : Option (List PbpRow) :=
if decide (issue + 1 < rows.length) && decide (rowEt rows (issue + 1) = some 4)
    && decide (rowEn rows (issue + 1) = some (eventNum - 1)) then
  some (swapAdj rows issue)
else none

/-- Pattern 4: triplet (shot, rebound, rebound) with the first rebound out of
place; swap the shot with it. -/
def pattern4Fix (rows : List PbpRow) (issue : ℕ) (eventNum : ℤ) : Option (List PbpRow) :=
if decide (1 ≤ issue) && decide (issue + 1 < rows.length)
    && decide (rowEt rows (issue + 1) = some 4)
    && decide (rowEt rows (issue - 1) = some 2)
    && decide (rowEn rows (issue + 1) = some (eventNum + 2))
    && decide (rowEn rows (issue - 1) = some (eventNum + 1)) then
  some (swapAdj rows (issue - 1))
else none

/-- Pattern 5: triplet with the second rebound out of place; reorder the
three rows to (first rebound, shot, second rebound). -/
def pattern5Fix (rows : List PbpRow) (issue : ℕ) (eventNum : ℤ) : Option (List PbpRow) :=
if decide (1 ≤ issue) && decide (issue + 1 < rows.length)
    && decide (rowEt rows (issue + 1) = some 4)
    && decide (rowEt rows (issue - 1) = some 2)
    && decide (rowEn rows (issue + 1) = some (eventNum - 2))
    && decide (rowEn rows (issue - 1) = some (eventNum - 1)) then
  some (rows.take (issue - 1)
    ++ [rows.getD (issue + 1) default, rows.getD (issue - 1) default, rows.getD issue default]
    ++ rows.drop (issue + 2))
else none

/-- `pid = row.get("PLAYER1_ID") or 0`. -/
def rowPid (rows : List PbpRow) (i : ℕ) : ℤ :=
((rows.getD i default).player1Id).getD 0

/-- TEAM/placeholder rebound id: explicit team id (≥ 1 610 000 000) or 0. -/
def pidIsTeam (p : ℤ) : Bool :=
decide (1610000000 ≤ p) || decide (p = 0)

/-- The row at `i` is a team/placeholder rebound. -/
def rowIsTeamReb (rows : List PbpRow) (i : ℕ) : Bool :=
decide (rowEt rows i = some 4) && pidIsTeam (rowPid rows i)

/-- The row at `i` is a player rebound. -/
def rowIsPlayerReb (rows : List PbpRow) (i : ℕ) : Bool :=
decide (rowEt rows i = some 4) && !pidIsTeam (rowPid rows i)

/-- The fallback scan loop (processor lines 238–254): walk the candidate
indices, stop at a period change, break at the first team rebound, remember
the first player rebound. -/
def scanRebounds (rows : List PbpRow) (pp : Option ℤ) :
    List ℕ → Option ℕ → Option ℕ × Option ℕ
| [], pc => (none, pc)
| i :: rest, pc =>
    if !decide ((rows.getD i default).period = pp) then (none, pc)
    else if !decide (rowEt rows i = some 4) then scanRebounds rows pp rest pc
    else if pidIsTeam (rowPid rows i) then (some i, pc)
    else
      match pc with
      | none => scanRebounds rows pp rest (some i)
      | some _ => scanRebounds rows pp rest pc

/-- Resolution of the scan result (processor lines 272–306): prefer deleting
the team candidate; a player candidate is deleted only outside strict mode;
otherwise re-raise. -/
def resolveCandidates (strict : Bool) (rows : List PbpRow) :
    Option ℕ × Option ℕ → FixResult
| (some i, _) => FixResult.fixed (rows.eraseIdx i)
| (none, some i) => if strict then FixResult.reraise else FixResult.fixed (rows.eraseIdx i)
| (none, none) => FixResult.reraise

/-- The scanned index range `range(issue+1, min(issue+10, len(rows)))`. -/
def fallbackWindowIdx (rows : List PbpRow) (issue : ℕ) : List ℕ :=
List.range' (issue + 1) (min (issue + 10) rows.length - (issue + 1))

/-- The whole fallback of `_fix_event_order`. -/
def fallbackFix (strict : Bool) (rows : List PbpRow) (issue : ℕ) : FixResult :=
resolveCandidates strict rows
  (scanRebounds rows ((rows.getD issue default).period) (fallbackWindowIdx rows issue) none)

/-- Embedding of `PbpProcessor._fix_event_order` from the point where the
offending `event_num` is known: locate the offending row, try the five
pattern fixes in order, then fall back to orphan-rebound deletion. -/
def fixEventOrder (strict : Bool) (rows : List PbpRow) (eventNum : ℤ) : FixResult :=
match List.findIdx? (fun r => decide (r.eventnum = some eventNum)) rows with
| none => FixResult.reraise
| some issue =>
    match pattern1Fix rows issue eventNum with
    | some r => FixResult.fixed r
    | none =>
        match pattern2Fix rows issue with
        | some r => FixResult.fixed r
        | none =>
            match pattern3Fix rows issue eventNum with
            | some r => FixResult.fixed r
            | none =>
                match pattern4Fix rows issue eventNum with
                | some r => FixResult.fixed r
                | none =>
                    match pattern5Fix rows issue eventNum with
                    | some r => FixResult.fixed r
                    | none => fallbackFix strict rows issue

def rowInPeriod (rows : List PbpRow) (pp : Option ℤ) (i : ℕ) : Bool :=
decide ((rows.getD i default).period = pp)

/-- The claim's description of the fallback, with the window corrected to the
next NINE rows: truncate the scanned range at the first period change, delete
the earliest team/placeholder rebound; otherwise, in strict mode re-raise and
outside strict mode delete the earliest player rebound; re-raise when no
rebound is in the window. -/
def fallbackSpec (strict : Bool) (rows : List PbpRow) (issue : ℕ) : FixResult :=
let pp := (rows.getD issue default).period
let window := (fallbackWindowIdx rows issue).takeWhile (rowInPeriod rows pp)
match window.find? (fun i => rowIsTeamReb rows i) with
| some i => FixResult.fixed (rows.eraseIdx i)
| none =>
    match window.find? (fun i => rowIsPlayerReb rows i) with
    | some i => if strict then FixResult.reraise else FixResult.fixed (rows.eraseIdx i)
    | none => FixResult.reraise

def optFirst : Option ℕ → Option ℕ → Option ℕ
| some a, _ => some a
| none, b => b

theorem scan_resolve (strict : Bool) (rows : List PbpRow) (pp : Option ℤ) :
    ∀ (idxs : List ℕ) (pc : Option ℕ),
    resolveCandidates strict rows (scanRebounds rows pp idxs pc)
      = (match (idxs.takeWhile (rowInPeriod rows pp)).find?
            (fun i => rowIsTeamReb rows i) with
         | some i => FixResult.fixed (rows.eraseIdx i)
         | none =>
             match optFirst pc ((idxs.takeWhile (rowInPeriod rows pp)).find?
                (fun i => rowIsPlayerReb rows i)) with
             | some i => if strict then FixResult.reraise
                 else FixResult.fixed (rows.eraseIdx i)
             | none => FixResult.reraise) := by
  intro idxs
  induction idxs with
  | nil =>
      intro pc
      rcases pc with _ | j <;>
        simp [scanRebounds, resolveCandidates, optFirst, List.takeWhile_nil]
  | cons i rest ih =>
      intro pc
      by_cases hper : (rows[i]?.getD default).period = pp
      · by_cases het : rowEt rows i = some 4
        · by_cases hteam : pidIsTeam (rowPid rows i) = true
          · have hT : rowIsTeamReb rows i = true := by
              simp [rowIsTeamReb, het, hteam]
            simp [scanRebounds, hper, het, hteam, List.takeWhile_cons, rowInPeriod,
              List.find?_cons, hT, resolveCandidates]
          · have hT : rowIsTeamReb rows i = false := by
              simp [rowIsTeamReb, hteam]
            have hP : rowIsPlayerReb rows i = true := by
              simp [rowIsPlayerReb, het, hteam]
            rcases pc with _ | j <;>
              simp [scanRebounds, hper, het, hteam, List.takeWhile_cons, rowInPeriod,
                List.find?_cons, hT, hP, ih, optFirst]
        · have hT : rowIsTeamReb rows i = false := by
            simp [rowIsTeamReb, het]
          have hP : rowIsPlayerReb rows i = false := by
            simp [rowIsPlayerReb, het]
          simp [scanRebounds, hper, het, List.takeWhile_cons, rowInPeriod,
            List.find?_cons, hT, hP, ih]
      · rcases pc with _ | j <;>
          simp [scanRebounds, hper, List.takeWhile_cons, rowInPeriod,
            resolveCandidates, optFirst]

theorem fallbackFix_eq_spec (strict : Bool) (rows : List PbpRow) (issue : ℕ) :
    fallbackFix strict rows issue = fallbackSpec strict rows issue := by
  unfold fallbackFix fallbackSpec
  rw [scan_resolve]
  simp [optFirst]

/-- Claim C4 (amended): when the offending row is found and none of the five
pattern-based fixes applies, `_fix_event_order` scans the next NINE rows
(`range(issue+1, min(issue+10, len))`) of the same period for a rebound and
deletes the earliest team/placeholder rebound (`PLAYER1_ID` 0 or
≥ 1 610 000 000); under strict mode it never deletes a player rebound and
re-raises instead, and with no candidate rebound it re-raises. -/
theorem C4_fix_event_order_theorem (strict : Bool) (rows : List PbpRow)
    (eventNum : ℤ) (issue : ℕ)
    (hIdx : List.findIdx? (fun r => decide (r.eventnum = some eventNum)) rows
      = some issue)
    (hp1 : pattern1Fix rows issue eventNum = none)
    (hp2 : pattern2Fix rows issue = none)
    (hp3 : pattern3Fix rows issue eventNum = none)
    (hp4 : pattern4Fix rows issue eventNum = none)
    (hp5 : pattern5Fix rows issue eventNum = none) :
    fixEventOrder strict rows eventNum = fallbackSpec strict rows issue := by
  unfold fixEventOrder
  rw [hIdx]
  simp only [hp1, hp2, hp3, hp4, hp5]
  exact fallbackFix_eq_spec strict rows issue

/-- A malformed game slice whose only repair candidate is a team rebound two
rows after the offending missed shot. -/
def c4WRows : List PbpRow :=
[⟨some 5, some 2, some 1, some 7⟩,
 ⟨some 6, some 1, some 1, some 9⟩,
 ⟨some 7, some 4, some 1, some 0⟩]

theorem C4_fix_event_order_witness :
    fixEventOrder true c4WRows 5 = fallbackSpec true c4WRows 0
    ∧ fallbackSpec true c4WRows 0 = FixResult.fixed (c4WRows.eraseIdx 2) :=
  ⟨C4_fix_event_order_theorem true c4WRows 5 0 (by decide) (by decide) (by decide)
      (by decide) (by decide) (by decide),
   by decide⟩

/-- Rows for the C4 counterexample: the only candidate rebound sits exactly
ten rows after the offending event, in the same period. -/
def c4Rows : List PbpRow :=
[⟨some 5, some 2, some 1, some 7⟩,
 ⟨some 101, some 1, some 1, some 7⟩,
 ⟨some 102, some 1, some 1, some 7⟩,
 ⟨some 103, some 1, some 1, some 7⟩,
 ⟨some 104, some 1, some 1, some 7⟩,
 ⟨some 105, some 1, some 1, some 7⟩,
 ⟨some 106, some 1, some 1, some 7⟩,
 ⟨some 107, some 1, some 1, some 7⟩,
 ⟨some 108, some 1, some 1, some 7⟩,
 ⟨some 109, some 1, some 1, some 7⟩,
 ⟨some 50, some 4, some 1, some 0⟩]

/-- Counterexample to claim C4 as stated: a team/placeholder rebound in the
same period ten rows after the offending event (`range(issue+1, issue+10)`
scans only nine rows) is not found, and the repair re-raises instead of
deleting it. -/
theorem C4_fix_event_order_counterexample :
    fixEventOrder true c4Rows 5 = FixResult.reraise
    ∧ (c4Rows.getD 10 default).eventmsgtype = some 4
    ∧ (c4Rows.getD 10 default).player1Id = some 0
    ∧ (c4Rows.getD 10 default).period = (c4Rows.getD 0 default).period
    ∧ FixResult.reraise ≠ FixResult.fixed (c4Rows.eraseIdx 10) := by
  refine ⟨by decide, by decide, by decide, by decide, by decide⟩

/-! ### Claim C9 — `Possessions._aggregate_event_stats` (possessions/possessions.py)

Event stat records carry the six key fields of §4.8 plus `stat_value`.
`statValueIsInt` records whether the Python value is an `int` (a sum of ints
is an int; any float makes it a float).  The divide-by-5 key set
`KEYS_OFF_BY_FACTOR_OF_5_WHEN_AGGREGATING_FOR_TEAM_AND_LINEUPS` lives in
`pbpstats/__init__.py`, which is not among the provided sources, so it is a
parameter `div5`. -/

/-- The key fields an aggregation can group by. -/
inductive FieldName where
| player_id : FieldName
| team_id : FieldName
| opponent_team_id : FieldName
| lineup_id : FieldName
| opponent_lineup_id : FieldName
| stat_key : FieldName
deriving DecidableEq, Repr

/-- An event-level stat record. -/
structure StatRecord where
  player_id : ℤ
  team_id : ℤ
  opponent_team_id : ℤ
  lineup_id : String
  opponent_lineup_id : String
  stat_key : String
  stat_value : ℚ
  statValueIsInt : Bool
deriving DecidableEq, Repr

/-- A field value: ids are ints, lineup ids and stat keys strings. -/
inductive StatVal where
| i : ℤ → StatVal
| s : String → StatVal
deriving DecidableEq, Repr

def getField (r : StatRecord) : FieldName → StatVal
| FieldName.player_id => StatVal.i r.player_id
| FieldName.team_id => StatVal.i r.team_id
| FieldName.opponent_team_id => StatVal.i r.opponent_team_id
| FieldName.lineup_id => StatVal.s r.lineup_id
| FieldName.opponent_lineup_id => StatVal.s r.opponent_lineup_id
| FieldName.stat_key => StatVal.s r.stat_key

/-- `itemgetter(*args)`: the tuple of requested field values. -/
def grouperKey (args : List FieldName) (r : StatRecord) : List StatVal :=
args.map (getField r)

/-- Total order on field values; each key position holds one value shape, so
the (arbitrary) cross-shape ordering is never exercised by Python. -/
def statValLe (a b : StatVal) : Bool :=
match a, b with
| StatVal.i m, StatVal.i n => decide (m ≤ n)
| StatVal.s x, StatVal.s y => decide (x ≤ y)
| StatVal.i _, StatVal.s _ => true
| StatVal.s _, StatVal.i _ => false

/-- Lexicographic tuple comparison, as Python compares key tuples. -/
def keyLe : List StatVal → List StatVal → Bool
| [], _ => true
| _ :: _, [] => false
| a :: as, b :: bs => if a = b then keyLe as bs else statValLe a b

theorem statValLe_total (a b : StatVal) : statValLe a b = true ∨ statValLe b a = true := by
  cases a <;> cases b <;> simp [statValLe] <;>
    first
      | exact Int.le_total _ _
      | exact le_total _ _

theorem statValLe_antisymm {a b : StatVal} (h1 : statValLe a b = true)
    (h2 : statValLe b a = true) : a = b := by
  cases a with
  | i m =>
      cases b with
      | i n =>
          simp only [statValLe, decide_eq_true_eq] at h1 h2
          rw [le_antisymm h1 h2]
      | s y => simp [statValLe] at h2
  | s x =>
      cases b with
      | i n => simp [statValLe] at h1
      | s y =>
          simp only [statValLe, decide_eq_true_eq] at h1 h2
          rw [le_antisymm h1 h2]

theorem statValLe_trans {a b c : StatVal} (h1 : statValLe a b = true)
    (h2 : statValLe b c = true) : statValLe a c = true := by
  cases a with
  | i m =>
      cases b with
      | i n =>
          cases c with
          | i p =>
              simp only [statValLe, decide_eq_true_eq] at h1 h2 ⊢
              exact le_trans h1 h2
          | s y => simp [statValLe]
      | s y =>
          cases c with
          | i p => simp [statValLe] at h2
          | s z => simp [statValLe]
  | s x =>
      cases b with
      | i n => simp [statValLe] at h1
      | s y =>
          cases c with
          | i p => simp [statValLe] at h2
          | s z =>
              simp only [statValLe, decide_eq_true_eq] at h1 h2 ⊢
              exact le_trans h1 h2

theorem statValLe_refl (a : StatVal) : statValLe a a = true := by
  cases a <;> simp [statValLe]

theorem keyLe_refl (k : List StatVal) : keyLe k k = true := by
  induction k with
  | nil => rfl
  | cons a as ih => simp [keyLe, ih]

theorem keyLe_total (k1 k2 : List StatVal) : keyLe k1 k2 = true ∨ keyLe k2 k1 = true := by
  induction k1 generalizing k2 with
  | nil => left; rfl
  | cons a as ih =>
      cases k2 with
      | nil => right; rfl
      | cons b bs =>
          by_cases hab : a = b
          · subst hab
            simpa [keyLe] using ih bs
          · have hba : ¬ b = a := fun h => hab h.symm
            simpa [keyLe, hab, hba] using statValLe_total a b

theorem keyLe_antisymm {k1 k2 : List StatVal} (h1 : keyLe k1 k2 = true)
    (h2 : keyLe k2 k1 = true) : k1 = k2 := by
  induction k1 generalizing k2 with
  | nil =>
      cases k2 with
      | nil => rfl
      | cons b bs => simp [keyLe] at h2
  | cons a as ih =>
      cases k2 with
      | nil => simp [keyLe] at h1
      | cons b bs =>
          by_cases hab : a = b
          · subst hab
            simp only [keyLe, if_pos rfl] at h1 h2
            rw [ih h1 h2]
          · have hba : ¬ b = a := fun h => hab h.symm
            simp only [keyLe, if_neg hab, if_neg hba] at h1 h2
            exact absurd (statValLe_antisymm h1 h2) hab

theorem keyLe_trans {k1 k2 k3 : List StatVal} (h1 : keyLe k1 k2 = true)
    (h2 : keyLe k2 k3 = true) : keyLe k1 k3 = true := by
  induction k1 generalizing k2 k3 with
  | nil => rfl
  | cons a as ih =>
      cases k2 with
      | nil => simp [keyLe] at h1
      | cons b bs =>
          cases k3 with
          | nil => simp [keyLe] at h2
          | cons c cs =>
              by_cases hab : a = b <;> by_cases hbc : b = c
              · subst hab; subst hbc
                simp only [keyLe, if_pos rfl] at h1 h2 ⊢
                exact ih h1 h2
              · subst hab
                have hac : ¬ a = c := hbc
                simp only [keyLe, if_pos rfl, if_neg hbc] at h1 h2 ⊢
                exact h2
              · subst hbc
                simp only [keyLe, if_neg hab] at h1 ⊢
                exact h1
              · simp only [keyLe, if_neg hab, if_neg hbc] at h1 h2
                by_cases hac : a = c
                · subst hac
                  exact absurd (statValLe_antisymm h1 h2) hab
                · simp only [keyLe, if_neg hac]
                  exact statValLe_trans h1 h2

/-- The sort relation `sorted(stats, key=grouper)` uses. -/
def recLe (args : List FieldName) (a b : StatRecord) : Prop :=
keyLe (grouperKey args a) (grouperKey args b) = true

instance (args : List FieldName) : DecidableRel (recLe args) :=
fun a b => inferInstanceAs (Decidable (keyLe (grouperKey args a) (grouperKey args b) = true))

instance (args : List FieldName) : IsTotal StatRecord (recLe args) :=
⟨fun _ _ => keyLe_total _ _⟩

instance (args : List FieldName) : IsTrans StatRecord (recLe args) :=
⟨fun _ _ _ h1 h2 => keyLe_trans h1 h2⟩

/-- `itertools.groupby`: split a list into runs of equal keys, tagging each
run with its key. -/
def pyGroupby (key : StatRecord → List StatVal) :
    List StatRecord → List (List StatVal × List StatRecord)
| [] => []
| r :: rest =>
    (key r, r :: rest.takeWhile (fun x => decide (key x = key r)))
    :: pyGroupby key (rest.dropWhile (fun x => decide (key x = key r)))
termination_by l => l.length
decreasing_by
  exact Nat.lt_succ_of_le (List.dropWhile_sublist _).length_le

/-- The stat-collection loop of `_aggregate_event_stats` (lines 42–59):
events whose `event_stats` raises (`none`) are skipped, the rest are
concatenated. -/
def collectStats (poss : List (List (Option (List StatRecord)))) : List StatRecord :=
((poss.flatten).filterMap id).flatten

/-- `dict(zip(args, key))[f]` (call sites pass pairwise-distinct fields). -/
def zipLookup : List (FieldName × StatVal) → FieldName → Option StatVal
| [], _ => none
| (f, v) :: rest, f0 => if f = f0 then some v else zipLookup rest f0

/-- `temp_dict["stat_key"] in KEYS_OFF_BY_FACTOR_OF_5... and "player_id" not
in args`. -/
def isDiv5Group (args : List FieldName) (div5 : List String) (k : List StatVal) : Bool :=
(match zipLookup (args.zip k) FieldName.stat_key with
 | some (StatVal.s skey) => decide (skey ∈ div5)
 | _ => false) && !(decide (FieldName.player_id ∈ args))

/-- `value = value / 5` (true division, yielding a float) when the group is a
divide-by-5 team/lineup rollup, then
`value if isinstance(value, int) else round(value, 1)`. -/
def finalizeValue (cond : Bool) (sumv : ℚ) (isInt : Bool) : ℚ :=
if cond then roundTenth (sumv / 5)
else if isInt then sumv else roundTenth sumv

/-- One output row: `dict(zip(args, key))` plus the finalized `stat_value`. -/
structure AggRecord where
  keyFields : List (FieldName × StatVal)
  stat_value : ℚ
deriving DecidableEq, Repr

/-- The output row built for key `k` from its group `g`. -/
def aggEntry (args : List FieldName) (div5 : List String)
    (k : List StatVal) (g : List StatRecord) : AggRecord :=
⟨args.zip k,
 finalizeValue (isDiv5Group args div5 k)
   ((g.map (fun r => r.stat_value)).sum)
   (g.all (fun r => r.statValueIsInt))⟩

/-- Embedding of `Possessions._aggregate_event_stats(*args)`
(`pbpstats/resources/possessions/possessions.py`, lines 33–81). -/
def aggregateEventStats (args : List FieldName) (div5 : List String)
    (poss : List (List (Option (List StatRecord)))) : List AggRecord :=
let stats := collectStats poss
if stats.isEmpty then []
else
  (pyGroupby (grouperKey args) (List.insertionSort (recLe args) stats)).map
    (fun kg => aggEntry args div5 kg.1 kg.2)

/-- In a key-sorted list whose keys all dominate `k0`, the records with key
`k0` form a prefix: filtering equals taking the leading run. -/
theorem filter_eq_takeWhile_sorted (key : StatRecord → List StatVal) (k0 : List StatVal) :
    ∀ (l : List StatRecord),
    l.Pairwise (fun a b => keyLe (key a) (key b) = true) →
    (∀ z ∈ l, keyLe k0 (key z) = true) →
    l.filter (fun x => decide (key x = k0)) = l.takeWhile (fun x => decide (key x = k0)) := by
  intro l
  induction l with
  | nil => intro _ _; rfl
  | cons a rest ih =>
      intro hp hall
      have hp2 := List.pairwise_cons.mp hp
      by_cases ha : key a = k0
      · rw [List.filter_cons, List.takeWhile_cons]
        rw [if_pos (by simp [ha]), if_pos (by simp [ha])]
        rw [ih hp2.2 (fun z hz => hall z (List.mem_cons_of_mem _ hz))]
      · rw [List.filter_cons, List.takeWhile_cons]
        rw [if_neg (by simp [ha]), if_neg (by simp [ha])]
        rw [List.filter_eq_nil_iff.mpr ?_]
        intro z hz
        simp only [decide_eq_true_eq]
        intro hkz
        have h1 := hall a (List.mem_cons_self _ _)
        have h2 := hp2.1 z hz
        rw [hkz] at h2
        exact ha (keyLe_antisymm h2 h1)

/-- After dropping the leading `k0`-run of a key-sorted list, no remaining
record has key `k0`. -/
theorem dropWhile_keys_ne (key : StatRecord → List StatVal) (k0 : List StatVal) :
    ∀ (l : List StatRecord),
    l.Pairwise (fun a b => keyLe (key a) (key b) = true) →
    (∀ z ∈ l, keyLe k0 (key z) = true) →
    ∀ y ∈ l.dropWhile (fun x => decide (key x = k0)), key y ≠ k0 := by
  intro l
  induction l with
  | nil => intro _ _ y hy; simp [List.dropWhile_nil] at hy
  | cons a rest ih =>
      intro hp hall y hy
      have hp2 := List.pairwise_cons.mp hp
      rw [List.dropWhile_cons] at hy
      by_cases ha : key a = k0
      · rw [if_pos (by simp [ha])] at hy
        exact ih hp2.2 (fun z hz => hall z (List.mem_cons_of_mem _ hz)) y hy
      · rw [if_neg (by simp [ha])] at hy
        rcases List.mem_cons.mp hy with rfl | hyr
        · exact ha
        · intro hkz
          have h1 := hall a (List.mem_cons_self _ _)
          have h2 := hp2.1 y hyr
          rw [hkz] at h2
          exact ha (keyLe_antisymm h2 h1)

/-- `itertools.groupby` over a key-sorted list: every emitted group is the
full filter of its key, groups are nonempty, every record lands in a group,
and group keys are pairwise distinct. -/
theorem pyGroupby_spec (key : StatRecord → List StatVal) :
    ∀ (n : ℕ) (l : List StatRecord), l.length ≤ n →
    l.Pairwise (fun a b => keyLe (key a) (key b) = true) →
    (∀ kg ∈ pyGroupby key l,
        kg.2 = l.filter (fun x => decide (key x = kg.1)) ∧ kg.2 ≠ [])
    ∧ (∀ x ∈ l, ∃ kg ∈ pyGroupby key l, key x = kg.1)
    ∧ ((pyGroupby key l).map Prod.fst).Nodup := by
  intro n
  induction n with
  | zero =>
      intro l hlen _
      have : l = [] := List.length_eq_zero.mp (Nat.le_zero.mp hlen)
      subst this
      simp [pyGroupby]
  | succ n ih =>
      intro l hlen hp
      cases l with
      | nil => simp [pyGroupby]
      | cons r rest =>
          have hp2 := List.pairwise_cons.mp hp
          have hall : ∀ z ∈ rest, keyLe (key r) (key z) = true := hp2.1
          have hPrest : rest.Pairwise (fun a b => keyLe (key a) (key b) = true) := hp2.2
          have hdwSub : (rest.dropWhile (fun x => decide (key x = key r))).Sublist rest :=
            List.dropWhile_sublist _
          have hdwP := List.Pairwise.sublist hdwSub hPrest
          have hlen2 : (rest.dropWhile (fun x => decide (key x = key r))).length ≤ n := by
            have h1 := hdwSub.length_le
            simp only [List.length_cons] at hlen
            omega
          obtain ⟨IH1, IH2, IH3⟩ := ih _ hlen2 hdwP
          have hG : pyGroupby key (r :: rest)
              = (key r, r :: rest.takeWhile (fun x => decide (key x = key r)))
                :: pyGroupby key (rest.dropWhile (fun x => decide (key x = key r))) := by
            simp only [pyGroupby]
          have hfhead : (r :: rest).filter (fun x => decide (key x = key r))
              = r :: rest.takeWhile (fun x => decide (key x = key r)) := by
            rw [List.filter_cons, if_pos (by simp)]
            rw [filter_eq_takeWhile_sorted key (key r) rest hPrest hall]
          have hwit : ∀ kg ∈ pyGroupby key
              (rest.dropWhile (fun x => decide (key x = key r))),
              ∃ y ∈ rest.dropWhile (fun x => decide (key x = key r)), key y = kg.1 := by
            intro kg hkg
            obtain ⟨hfil, hne⟩ := IH1 kg hkg
            rcases hk2 : kg.2 with _ | ⟨y, ys⟩
            · exact absurd hk2 hne
            · have hymem : y ∈ kg.2 := by rw [hk2]; exact List.mem_cons_self _ _
              rw [hfil] at hymem
              have hm := List.mem_filter.mp hymem
              exact ⟨y, hm.1, of_decide_eq_true hm.2⟩
          have hKrec : ∀ kg ∈ pyGroupby key
              (rest.dropWhile (fun x => decide (key x = key r))), kg.1 ≠ key r := by
            intro kg hkg hEq
            obtain ⟨y, hymem, hyk⟩ := hwit kg hkg
            exact dropWhile_keys_ne key (key r) rest hPrest hall y hymem (hyk.trans hEq)
          refine ⟨?_, ?_, ?_⟩
          · intro kg hkg
            rw [hG] at hkg
            rcases List.mem_cons.mp hkg with rfl | hkgrec
            · exact ⟨hfhead.symm, by simp⟩
            · obtain ⟨hfil, hne⟩ := IH1 kg hkgrec
              refine ⟨?_, hne⟩
              have hkne : kg.1 ≠ key r := hKrec kg hkgrec
              rw [List.filter_cons, if_neg (by
                simp only [decide_eq_true_eq]
                exact fun h => hkne h.symm)]
              rw [← List.takeWhile_append_dropWhile
                (p := fun x => decide (key x = key r)) (l := rest)]
              rw [List.filter_append]
              rw [List.filter_eq_nil_iff.mpr ?_, List.nil_append]
              · exact hfil
              · intro z hz
                have hz2 := List.mem_takeWhile_imp hz
                have hzk := of_decide_eq_true hz2
                simp only [decide_eq_true_eq]
                intro h
                exact hkne (h ▸ hzk)
          · intro x hx
            rcases List.mem_cons.mp hx with rfl | hxr
            · exact ⟨(key x, x :: rest.takeWhile (fun z => decide (key z = key x))),
                by rw [hG]; exact List.mem_cons_self _ _, rfl⟩
            · by_cases hxk : key x = key r
              · exact ⟨(key r, r :: rest.takeWhile (fun z => decide (key z = key r))),
                  by rw [hG]; exact List.mem_cons_self _ _, hxk⟩
              · have hxdw : x ∈ rest.dropWhile (fun z => decide (key z = key r)) := by
                  have hsplit : x ∈ rest.takeWhile (fun z => decide (key z = key r))
                      ++ rest.dropWhile (fun z => decide (key z = key r)) := by
                    rw [List.takeWhile_append_dropWhile]
                    exact hxr
                  rcases List.mem_append.mp hsplit with htw | hdw2
                  · have htw2 := List.mem_takeWhile_imp htw
                    exact absurd (of_decide_eq_true htw2) hxk
                  · exact hdw2
                obtain ⟨kg, hkgmem, hkx⟩ := IH2 x hxdw
                exact ⟨kg, by rw [hG]; exact List.mem_cons_of_mem _ hkgmem, hkx⟩
          · rw [hG]
            simp only [List.map_cons]
            rw [List.nodup_cons]
            refine ⟨?_, IH3⟩
            intro hmem
            obtain ⟨kg, hkg, hfst⟩ := List.mem_map.mp hmem
            exact hKrec kg hkg hfst

/-- `aggEntry` only reads a group through its value-sum and its all-ints
flag, so it is invariant under permutation of the group. -/
theorem aggEntry_perm (args : List FieldName) (div5 : List String)
    (k : List StatVal) {g1 g2 : List StatRecord} (h : g1.Perm g2) :
    aggEntry args div5 k g1 = aggEntry args div5 k g2 := by
  unfold aggEntry
  have hsum : (g1.map (fun r => r.stat_value)).sum
      = (g2.map (fun r => r.stat_value)).sum := (h.map _).sum_eq
  have hall : g1.all (fun r => r.statValueIsInt) = g2.all (fun r => r.statValueIsInt) := by
    rw [Bool.eq_iff_iff]
    simp only [List.all_eq_true]
    constructor
    · intro ha x hx
      exact ha x (h.mem_iff.mpr hx)
    · intro ha x hx
      exact ha x (h.mem_iff.mp hx)
  rw [hsum, hall]

/-- Claim C9: aggregation groups all collected event stat records by the
requested key fields — every output row is the finalized sum over the full
filter of its key, every record is represented, and no key appears twice —
where the finalized value divides the sum by 5 when the grouping keys omit
`player_id` and the group's stat key is in the divide-by-5 set, and rounds
any non-int result to one decimal place (`finalizeValue`). -/
theorem C9_aggregate_theorem (args : List FieldName) (div5 : List String)
    (poss : List (List (Option (List StatRecord))))
    (_hkey : FieldName.stat_key ∈ args) :
    (∀ entry ∈ aggregateEventStats args div5 poss, ∃ k : List StatVal,
        entry = aggEntry args div5 k
          ((collectStats poss).filter (fun r => decide (grouperKey args r = k)))
        ∧ (collectStats poss).filter (fun r => decide (grouperKey args r = k)) ≠ [])
    ∧ (∀ r ∈ collectStats poss, ∃ entry ∈ aggregateEventStats args div5 poss,
        entry.keyFields = args.zip (grouperKey args r))
    ∧ ((aggregateEventStats args div5 poss).map (fun e => e.keyFields)).Nodup := by
  by_cases hemp : (collectStats poss).isEmpty
  · have hnil : collectStats poss = [] := List.isEmpty_iff.mp hemp
    unfold aggregateEventStats
    rw [if_pos hemp]
    refine ⟨by simp, ?_, by simp⟩
    intro r hr
    rw [hnil] at hr
    simp at hr
  · unfold aggregateEventStats
    rw [if_neg hemp]
    have hsorted := List.sorted_insertionSort (recLe args) (collectStats poss)
    have hperm := List.perm_insertionSort (recLe args) (collectStats poss)
    have hpair : (List.insertionSort (recLe args) (collectStats poss)).Pairwise
        (fun a b => keyLe (grouperKey args a) (grouperKey args b) = true) :=
      List.Pairwise.imp (fun h => h) hsorted
    obtain ⟨H1, H2, H3⟩ := pyGroupby_spec (grouperKey args)
      (List.insertionSort (recLe args) (collectStats poss)).length
      (List.insertionSort (recLe args) (collectStats poss)) le_rfl hpair
    have hfilperm : ∀ k : List StatVal,
        ((List.insertionSort (recLe args) (collectStats poss)).filter
            (fun r => decide (grouperKey args r = k))).Perm
          ((collectStats poss).filter (fun r => decide (grouperKey args r = k))) :=
      fun k => hperm.filter _
    refine ⟨?_, ?_, ?_⟩
    · intro entry hentry
      obtain ⟨kg, hkg, hE⟩ := List.mem_map.mp hentry
      obtain ⟨hfil, hne⟩ := H1 kg hkg
      refine ⟨kg.1, ?_, ?_⟩
      · rw [← hE, ← aggEntry_perm args div5 kg.1 (hfilperm kg.1), ← hfil]
      · intro hnil
        have h2 := hfilperm kg.1
        rw [hnil] at h2
        exact hne (by rw [hfil]; exact h2.eq_nil)
    · intro r hr
      have hrs : r ∈ List.insertionSort (recLe args) (collectStats poss) :=
        hperm.mem_iff.mpr hr
      obtain ⟨kg, hkgmem, hkx⟩ := H2 r hrs
      refine ⟨aggEntry args div5 kg.1 kg.2, List.mem_map_of_mem _ hkgmem, ?_⟩
      rw [aggEntry, ← hkx]
    · rw [List.map_map]
      have hmapeq : ((fun e : AggRecord => e.keyFields)
            ∘ fun kg : List StatVal × List StatRecord => aggEntry args div5 kg.1 kg.2)
          = (fun k : List StatVal => args.zip k) ∘ Prod.fst := by
        funext kg
        rfl
      rw [hmapeq, ← List.map_map]
      refine List.Nodup.map_on ?_ H3
      intro k1 hk1 k2 hk2 hzip
      have hlen : ∀ k ∈ (pyGroupby (grouperKey args)
          (List.insertionSort (recLe args) (collectStats poss))).map Prod.fst,
          k.length = args.length := by
        intro k hk
        obtain ⟨kg, hkg, hfst⟩ := List.mem_map.mp hk
        obtain ⟨hfil, hne⟩ := H1 kg hkg
        rcases hg : kg.2 with _ | ⟨y, ys⟩
        · exact absurd hg hne
        · have hymem : y ∈ kg.2 := by rw [hg]; exact List.mem_cons_self _ _
          rw [hfil] at hymem
          have hm := List.mem_filter.mp hymem
          have hky := of_decide_eq_true hm.2
          rw [← hfst, ← hky, grouperKey, List.length_map]
      have h1 := hlen k1 hk1
      have h2 := hlen k2 hk2
      have hm1 : List.map Prod.snd (args.zip k1) = k1 :=
        List.map_snd_zip args k1 (le_of_eq h1)
      have hm2 : List.map Prod.snd (args.zip k2) = k2 :=
        List.map_snd_zip args k2 (le_of_eq h2)
      rw [← hm1, ← hm2, hzip]

/-- A team/stat-key grouping, as `team_stats` requests. -/
def c9Args : List FieldName := [FieldName.team_id, FieldName.stat_key]

def c9Div5 : List String := ["seconds_played"]

def c9r1 : StatRecord := ⟨1, 10, 20, "a", "b", "pts", 2, true⟩

def c9r2 : StatRecord := ⟨2, 10, 20, "a", "b", "pts", 3, true⟩

/-- One possession with one good event and one whose `event_stats` raises. -/
def c9Poss : List (List (Option (List StatRecord))) := [[some [c9r1, c9r2], none]]

theorem C9_aggregate_witness :
    ((aggregateEventStats c9Args c9Div5 c9Poss).map (fun e => e.keyFields)).Nodup
    ∧ ∃ entry ∈ aggregateEventStats c9Args c9Div5 c9Poss,
        entry.keyFields = c9Args.zip (grouperKey c9Args c9r1) :=
  ⟨(C9_aggregate_theorem c9Args c9Div5 c9Poss (by decide)).2.2,
   (C9_aggregate_theorem c9Args c9Div5 c9Poss (by decide)).2.1 c9r1
     (by
       rw [show collectStats c9Poss = [c9r1, c9r2] from rfl]
       exact List.mem_cons_self _ _)⟩

/-! ### Claim C7 — `iso_to_pctimestring` (stats_nba/pbp/cdn_adapter.py)

The regex `^PT(?:(\d+)M)?(?:(\d+(?:\.\d+)?)S)?$` is embedded as a
deterministic character parse; the `f"{mins}:{secs:05.2f}"` float format is
modelled as exact round-half-to-even on the rational seconds value. -/

/-- The decimal digit character for `d < 10`. -/
def digitChar (d : ℕ) : Char := Char.ofNat (48 + d)

/-- Numeric value of a digit character. -/
def charToDigit (c : Char) : ℕ := c.toNat - 48

/-- Python `int` over a digit string (big-endian fold). -/
def digitsVal (ds : List Char) : ℕ :=
ds.foldl (fun a c => 10 * a + charToDigit c) 0

/-- Decimal rendering of a natural number, little fuel-driven long division
(the fuel `n` always suffices). -/
def natRenderAux : ℕ → ℕ → List Char
| 0, _ => []
| fuel + 1, n =>
    if n = 0 then []
    else natRenderAux fuel (n / 10) ++ [digitChar (n % 10)]

/-- `str(n)` for a natural number. -/
def natRender (n : ℕ) : List Char :=
if n = 0 then ['0'] else natRenderAux n n

/-- Zero-pad a rendered number to at least two characters (the effect of the
width-5 `05.2f` format on the integer part). -/
def pad2 (cs : List Char) : List Char :=
if cs.length < 2 then List.replicate (2 - cs.length) '0' ++ cs else cs

theorem digitChar_isDigit {d : ℕ} (h : d < 10) : (digitChar d).isDigit = true := by
  interval_cases d <;> decide

theorem charToDigit_digitChar {d : ℕ} (h : d < 10) : charToDigit (digitChar d) = d := by
  interval_cases d <;> decide

theorem digitChar_ne_dot {d : ℕ} (h : d < 10) : digitChar d ≠ '.' := by
  interval_cases d <;> decide

theorem digitChar_ne_zero {d : ℕ} (h0 : 0 < d) (h : d < 10) : digitChar d ≠ '0' := by
  interval_cases d <;> decide

theorem digitsVal_append (l1 l2 : List Char) :
    digitsVal (l1 ++ l2) = l2.foldl (fun a c => 10 * a + charToDigit c) (digitsVal l1) := by
  unfold digitsVal
  rw [List.foldl_append]

theorem digitsVal_snoc (l : List Char) (c : Char) :
    digitsVal (l ++ [c]) = 10 * digitsVal l + charToDigit c := by
  rw [digitsVal_append]
  rfl

theorem natRenderAux_zero (fuel : ℕ) : natRenderAux fuel 0 = [] := by
  cases fuel <;> rfl

theorem natRenderAux_spec : ∀ (fuel n : ℕ), 0 < n → n ≤ fuel →
    digitsVal (natRenderAux fuel n) = n
    ∧ (∀ c ∈ natRenderAux fuel n, c.isDigit = true)
    ∧ natRenderAux fuel n ≠ [] := by
  intro fuel
  induction fuel with
  | zero => intro n h1 h2; omega
  | succ fuel ih =>
      intro n h1 h2
      rw [natRenderAux, if_neg (by omega)]
      by_cases hsmall : n < 10
      · have hdiv : n / 10 = 0 := Nat.div_eq_of_lt hsmall
        rw [hdiv, natRenderAux_zero]
        refine ⟨?_, ?_, by simp⟩
        · rw [List.nil_append, show digitsVal [digitChar (n % 10)]
            = charToDigit (digitChar (n % 10)) from by simp [digitsVal, charToDigit]]
          rw [charToDigit_digitChar (Nat.mod_lt _ (by norm_num))]
          omega
        · intro c hc
          simp only [List.nil_append, List.mem_singleton] at hc
          subst hc
          exact digitChar_isDigit (Nat.mod_lt _ (by norm_num))
      · have hd1 : 0 < n / 10 := Nat.div_pos (by omega) (by norm_num)
        have hd2 : n / 10 ≤ fuel := by
          have := Nat.div_lt_self h1 (show 1 < 10 by norm_num)
          omega
        obtain ⟨hv, hdig, hne⟩ := ih (n / 10) hd1 hd2
        refine ⟨?_, ?_, by simp⟩
        · rw [digitsVal_snoc, hv, charToDigit_digitChar (Nat.mod_lt _ (by norm_num))]
          omega
        · intro c hc
          rcases List.mem_append.mp hc with hc1 | hc2
          · exact hdig c hc1
          · simp only [List.mem_singleton] at hc2
            subst hc2
            exact digitChar_isDigit (Nat.mod_lt _ (by norm_num))

theorem digitsVal_natRender (n : ℕ) : digitsVal (natRender n) = n := by
  unfold natRender
  by_cases h : n = 0
  · subst h; decide
  · rw [if_neg h]
    exact (natRenderAux_spec n n (by omega) le_rfl).1

theorem natRender_digits (n : ℕ) : ∀ c ∈ natRender n, c.isDigit = true := by
  unfold natRender
  by_cases h : n = 0
  · subst h; intro c hc; simp at hc; subst hc; decide
  · rw [if_neg h]
    exact (natRenderAux_spec n n (by omega) le_rfl).2.1

theorem natRenderAux_single {fuel d : ℕ} (hf : 1 ≤ fuel) (h0 : 0 < d) (h : d < 10) :
    natRenderAux fuel d = [digitChar d] := by
  cases fuel with
  | zero => omega
  | succ f =>
      rw [natRenderAux, if_neg (by omega), Nat.div_eq_of_lt h, natRenderAux_zero,
        Nat.mod_eq_of_lt h, List.nil_append]

theorem natRender_single {d : ℕ} (h0 : 0 < d) (h : d < 10) :
    natRender d = [digitChar d] := by
  unfold natRender
  rw [if_neg (by omega)]
  exact natRenderAux_single h0 h0 h

/-- The seconds portion of the clock regex:
`(?:(\d+(?:\.\d+)?)S)?$` applied to the remaining characters.  `some none`
means the optional group is absent (input exhausted); `some (ds, fo)` gives
the integer digits and the optional fraction digits; `none` means the whole
regex fails to match. -/
def parseSeconds (cs : List Char) : Option (Option (List Char × Option (List Char))) :=
match cs with
| [] => some none
| _ :: _ =>
    let ds := cs.takeWhile Char.isDigit
    if ds.isEmpty then none
    else
      match cs.dropWhile Char.isDigit with
      | [c1] => if c1 == 'S' then some (some (ds, none)) else none
      | c1 :: r2 =>
          if c1 == '.' then
            let fs := r2.takeWhile Char.isDigit
            if fs.isEmpty then none
            else
              match r2.dropWhile Char.isDigit with
              | [c2] => if c2 == 'S' then some (some (ds, some fs)) else none
              | _ => none
          else none
      | [] => none

/-- `_CLOCK.match`, i.e. `^PT(?:(\d+)M)?(?:(\d+(?:\.\d+)?)S)?$`
(cdn_adapter.py line 11): returns the two capture groups on a match.  The
greedy `\d+` runs are maximal digit spans; backtracking can never produce a
shorter span because the character after the span is not a digit. -/
def clockParse (cs : List Char) : Option (Option (List Char) × Option (List Char × Option (List Char))) :=
match cs with
| p :: t :: rest =>
    if (p == 'P') && (t == 'T') then
      match rest.dropWhile Char.isDigit with
      | m :: r2 =>
          if m == 'M' then
            if (rest.takeWhile Char.isDigit).isEmpty then none
            else (parseSeconds r2).map (fun g2 => (some (rest.takeWhile Char.isDigit), g2))
          else (parseSeconds rest).map (fun g2 => (none, g2))
      | [] => (parseSeconds rest).map (fun g2 => (none, g2))
    else none
| _ => none

/-- `int(match.group(1) or 0)`. -/
def minsOfGroup : Option (List Char) → ℕ
| none => 0
| some ds => digitsVal ds

/-- `float(match.group(2) or 0.0)` as an exact rational. -/
def secsOfGroup : Option (List Char × Option (List Char)) → ℚ
| none => 0
| some (ds, none) => (digitsVal ds : ℚ)
| some (ds, some fs) => (digitsVal ds : ℚ) + (digitsVal fs : ℚ) / (10 : ℚ) ^ fs.length

/-- The `{secs:05.2f}` field: round to hundredths (half-to-even), render the
integer part zero-padded to two characters, then a dot and exactly two
fraction digits. -/
def fmt52 (secs : ℚ) : List Char :=
pad2 (natRender ((roundHalfEven (secs * 100)).toNat / 100)) ++
  '.' :: [digitChar ((roundHalfEven (secs * 100)).toNat / 10 % 10),
    digitChar ((roundHalfEven (secs * 100)).toNat % 10)]

/-- Python `str.rstrip` for a single strip character. -/
def rstrip (c : Char) (cs : List Char) : List Char :=
((cs.reverse).dropWhile (fun x => decide (x = c))).reverse

/-- `iso_to_pctimestring` (cdn_adapter.py lines 37-50).  `none` models a
`None` argument; the empty string is also falsy in Python. -/
def iso_to_pctimestring : Option String → String
| none => "0:00"
| some s =>
    match s.data with
    | [] => "0:00"
    | c :: cs =>
        match clockParse (c :: cs) with
        | none => "0:00"
        | some (g1, g2) =>
            let mins := minsOfGroup g1
            let pct := natRender mins ++ ':' :: fmt52 (secsOfGroup g2)
            let stripped := rstrip '.' (rstrip '0' pct)
            if stripped.any (fun ch => decide (ch = ':')) then String.mk stripped
            else String.mk (natRender mins ++ ':' :: ['0', '0'])

theorem span_digits (ds : List Char) (c : Char) (t : List Char)
    (h1 : ∀ x ∈ ds, x.isDigit = true) (hc : c.isDigit = false) :
    (ds ++ c :: t).takeWhile Char.isDigit = ds
    ∧ (ds ++ c :: t).dropWhile Char.isDigit = c :: t := by
  induction ds with
  | nil => simp [List.takeWhile_cons, List.dropWhile_cons, hc]
  | cons a as ih =>
      have ha : a.isDigit = true := h1 a (by simp)
      have hrec := ih (fun x hx => h1 x (by simp [hx]))
      constructor
      · simp [List.takeWhile_cons, ha, hrec.1]
      · simp [List.dropWhile_cons, ha, hrec.2]

theorem rstrip_snoc_ne (c x : Char) (l : List Char) (hx : x ≠ c) :
    rstrip c (l ++ [x]) = l ++ [x] := by
  simp [rstrip, List.dropWhile_cons, hx]

theorem rstrip_snoc_eq (c : Char) (l : List Char) :
    rstrip c (l ++ [c]) = rstrip c l := by
  simp [rstrip, List.dropWhile_cons]

/-- For `s < 100` the padded seconds field is exactly the two digit
characters of `s`. -/
theorem pad2_natRender {s : ℕ} (h : s < 100) :
    pad2 (natRender s) = [digitChar (s / 10), digitChar (s % 10)] := by
  by_cases h0 : s = 0
  · subst h0; decide
  · by_cases h10 : s < 10
    · rw [natRender_single (by omega) h10]
      rw [Nat.div_eq_of_lt h10, Nat.mod_eq_of_lt h10]
      simp [pad2, List.replicate]
      decide
    · have hrender : natRender s = [digitChar (s / 10), digitChar (s % 10)] := by
        unfold natRender
        rw [if_neg h0]
        rcases Nat.exists_eq_succ_of_ne_zero h0 with ⟨k, rfl⟩
        rw [natRenderAux, if_neg (by omega)]
        rw [natRenderAux_single (show 1 ≤ k by omega)
          (Nat.div_pos (by omega) (by norm_num)) (by omega)]
        rfl
      rw [hrender]
      rfl

theorem natRender_ne_nil (n : ℕ) : natRender n ≠ [] := by
  unfold natRender
  by_cases h : n = 0
  · simp [h]
  · rw [if_neg h]
    exact (natRenderAux_spec n n (by omega) le_rfl).2.2

theorem digitsVal_two {a b : ℕ} (ha : a < 10) (hb : b < 10) :
    digitsVal [digitChar a, digitChar b] = 10 * a + b := by
  unfold digitsVal
  simp [List.foldl_cons, List.foldl_nil, charToDigit_digitChar ha, charToDigit_digitChar hb]

theorem parseSeconds_wf_frac (s f : ℕ) (hs : s < 100) (hf : f < 100) :
    parseSeconds (pad2 (natRender s) ++ '.' :: digitChar (f / 10) :: digitChar (f % 10) :: ['S'])
      = some (some (pad2 (natRender s), some [digitChar (f / 10), digitChar (f % 10)])) := by
  rw [pad2_natRender hs]
  have h1 : Char.isDigit (digitChar (s / 10)) = true := digitChar_isDigit (by omega)
  have h2 : Char.isDigit (digitChar (s % 10)) = true := digitChar_isDigit (by omega)
  have h3 : Char.isDigit (digitChar (f / 10)) = true := digitChar_isDigit (by omega)
  have h4 : Char.isDigit (digitChar (f % 10)) = true := digitChar_isDigit (by omega)
  have hdot : Char.isDigit '.' = false := by decide
  have hS : Char.isDigit 'S' = false := by decide
  simp [parseSeconds, List.takeWhile_cons, List.dropWhile_cons, h1, h2, h3, h4, hdot, hS]

theorem parseSeconds_wf_nofrac (s : ℕ) (hs : s < 100) :
    parseSeconds (pad2 (natRender s) ++ ['S'])
      = some (some (pad2 (natRender s), none)) := by
  rw [pad2_natRender hs]
  have h1 : Char.isDigit (digitChar (s / 10)) = true := digitChar_isDigit (by omega)
  have h2 : Char.isDigit (digitChar (s % 10)) = true := digitChar_isDigit (by omega)
  have hS : Char.isDigit 'S' = false := by decide
  simp [parseSeconds, List.takeWhile_cons, List.dropWhile_cons, h1, h2, hS]

theorem clockParse_wf_frac (m s f : ℕ) (hs : s < 100) (hf : f < 100) :
    clockParse ('P' :: 'T' :: (natRender m ++ 'M' :: (pad2 (natRender s) ++ '.' :: digitChar (f / 10) :: digitChar (f % 10) :: ['S'])))
      = some (some (natRender m), some (pad2 (natRender s), some [digitChar (f / 10), digitChar (f % 10)])) := by
  have hspan := span_digits (natRender m) 'M'
    (pad2 (natRender s) ++ '.' :: digitChar (f / 10) :: digitChar (f % 10) :: ['S'])
    (natRender_digits m) (by decide)
  have hne : (natRender m).isEmpty = false := by
    cases hnr : natRender m with
    | nil => exact absurd hnr (natRender_ne_nil m)
    | cons a l => rfl
  simp [clockParse, hspan.1, hspan.2, hne, parseSeconds_wf_frac s f hs hf]

theorem clockParse_wf_nofrac (m s : ℕ) (hs : s < 100) :
    clockParse ('P' :: 'T' :: (natRender m ++ 'M' :: (pad2 (natRender s) ++ ['S'])))
      = some (some (natRender m), some (pad2 (natRender s), none)) := by
  have hspan := span_digits (natRender m) 'M' (pad2 (natRender s) ++ ['S'])
    (natRender_digits m) (by decide)
  have hne : (natRender m).isEmpty = false := by
    cases hnr : natRender m with
    | nil => exact absurd hnr (natRender_ne_nil m)
    | cons a l => rfl
  simp [clockParse, hspan.1, hspan.2, hne, parseSeconds_wf_nofrac s hs]

theorem fmt52_eval (s f : ℕ) (hf : f < 100) :
    fmt52 ((s : ℚ) + (f : ℚ) / 100)
      = pad2 (natRender s) ++ '.' :: [digitChar (f / 10), digitChar (f % 10)] := by
  have hc : roundHalfEven (((s : ℚ) + (f : ℚ) / 100) * 100) = ((100 * s + f : ℕ) : ℤ) := by
    have hx : ((s : ℚ) + (f : ℚ) / 100) * 100 = (((100 * s + f : ℕ) : ℤ) : ℚ) := by
      push_cast
      ring
    rw [hx, roundHalfEven_intCast]
  unfold fmt52
  rw [hc, Int.toNat_natCast]
  have e1 : (100 * s + f) / 100 = s := by omega
  have e2 : (100 * s + f) / 10 % 10 = f / 10 := by omega
  have e3 : (100 * s + f) % 10 = f % 10 := by omega
  rw [e1, e2, e3]

/-- The net effect of `.rstrip("0").rstrip(".")` on `m:ss.ff`: the two
fraction digits of `f` survive as `[]`, `.f1`, or `.f1f0`. -/
def fracSuffix (f : ℕ) : List Char :=
if f = 0 then []
else if f % 10 = 0 then ['.', digitChar (f / 10)]
else ['.', digitChar (f / 10), digitChar (f % 10)]

theorem strip_frac (pre : List Char) (e : ℕ) (he : e < 10) (f : ℕ) (hf : f < 100) :
    rstrip '.' (rstrip '0' ((pre ++ [digitChar e]) ++ '.' :: [digitChar (f / 10), digitChar (f % 10)]))
      = (pre ++ [digitChar e]) ++ fracSuffix f := by
  have hd0 : digitChar 0 = '0' := rfl
  by_cases h0 : f = 0
  · subst h0
    have hshape : ((pre ++ [digitChar e]) ++ '.' :: [digitChar (0 / 10), digitChar (0 % 10)])
        = ((((pre ++ [digitChar e]) ++ ['.']) ++ ['0']) ++ ['0']) := by
      simp [hd0]
    rw [hshape, rstrip_snoc_eq, rstrip_snoc_eq,
      rstrip_snoc_ne '0' '.' _ (by decide), rstrip_snoc_eq,
      rstrip_snoc_ne '.' (digitChar e) pre (digitChar_ne_dot he)]
    simp [fracSuffix]
  · by_cases h10 : f % 10 = 0
    · have hge : 10 ≤ f := by omega
      have hshape : ((pre ++ [digitChar e]) ++ '.' :: [digitChar (f / 10), digitChar (f % 10)])
          = ((((pre ++ [digitChar e]) ++ ['.']) ++ [digitChar (f / 10)]) ++ ['0']) := by
        simp [h10, hd0]
      rw [hshape, rstrip_snoc_eq,
        rstrip_snoc_ne '0' (digitChar (f / 10)) _ (digitChar_ne_zero (by omega) (by omega)),
        rstrip_snoc_ne '.' (digitChar (f / 10)) _ (by
          have := digitChar_ne_dot (show f / 10 < 10 by omega)
          exact this)]
      simp [fracSuffix, h0, h10]
    · have hshape : ((pre ++ [digitChar e]) ++ '.' :: [digitChar (f / 10), digitChar (f % 10)])
          = ((((pre ++ [digitChar e]) ++ ['.']) ++ [digitChar (f / 10)]) ++ [digitChar (f % 10)]) := by
        simp
      rw [hshape,
        rstrip_snoc_ne '0' (digitChar (f % 10)) _ (digitChar_ne_zero (by omega) (by omega)),
        rstrip_snoc_ne '.' (digitChar (f % 10)) _ (digitChar_ne_dot (by omega))]
      simp [fracSuffix, h0, h10]

theorem iso_some_cons (c : Char) (cs : List Char) :
    iso_to_pctimestring (some (String.mk (c :: cs)))
      = (match clockParse (c :: cs) with
        | none => "0:00"
        | some (g1, g2) =>
            let mins := minsOfGroup g1
            let pct := natRender mins ++ ':' :: fmt52 (secsOfGroup g2)
            let stripped := rstrip '.' (rstrip '0' pct)
            if stripped.any (fun ch => decide (ch = ':')) then String.mk stripped
            else String.mk (natRender mins ++ ':' :: ['0', '0'])) := rfl

theorem iso_eval_frac (m s f : ℕ) (hs : s < 100) (hf : f < 100) :
    iso_to_pctimestring (some (String.mk ('P' :: 'T' :: (natRender m ++ 'M' :: (pad2 (natRender s) ++ '.' :: digitChar (f / 10) :: digitChar (f % 10) :: ['S'])))))
      = String.mk ((natRender m ++ ':' :: pad2 (natRender s)) ++ fracSuffix f) := by
  rw [iso_some_cons, clockParse_wf_frac m s f hs hf]
  have hmins : minsOfGroup (some (natRender m)) = m := by
    simp [minsOfGroup, digitsVal_natRender]
  have hsecs : secsOfGroup (some (pad2 (natRender s), some [digitChar (f / 10), digitChar (f % 10)]))
      = (s : ℚ) + (f : ℚ) / 100 := by
    have hds : digitsVal (pad2 (natRender s)) = s := by
      rw [pad2_natRender hs, digitsVal_two (by omega) (by omega)]
      omega
    have hfs : digitsVal [digitChar (f / 10), digitChar (f % 10)] = f := by
      rw [digitsVal_two (by omega) (by omega)]
      omega
    simp only [secsOfGroup, hds, hfs, List.length_cons, List.length_nil]
    norm_num
  simp only [hmins, hsecs, fmt52_eval s f hf]
  have hB : natRender m ++ ':' :: (pad2 (natRender s) ++ '.' :: [digitChar (f / 10), digitChar (f % 10)])
      = ((natRender m ++ ':' :: [digitChar (s / 10)]) ++ [digitChar (s % 10)]) ++ '.' :: [digitChar (f / 10), digitChar (f % 10)] := by
    rw [pad2_natRender hs]
    simp
  have hstrip := strip_frac (natRender m ++ ':' :: [digitChar (s / 10)]) (s % 10) (by omega) f hf
  have hBback : (natRender m ++ ':' :: [digitChar (s / 10)]) ++ [digitChar (s % 10)]
      = natRender m ++ ':' :: pad2 (natRender s) := by
    rw [pad2_natRender hs]
    simp
  rw [hB, hstrip, hBback]
  have hany : ((natRender m ++ ':' :: pad2 (natRender s)) ++ fracSuffix f).any
      (fun ch => decide (ch = ':')) = true := by
    apply List.any_eq_true.mpr
    exact ⟨':', by simp, by decide⟩
  rw [hany]
  simp

theorem iso_eval_nofrac (m s : ℕ) (hs : s < 100) :
    iso_to_pctimestring (some (String.mk ('P' :: 'T' :: (natRender m ++ 'M' :: (pad2 (natRender s) ++ ['S'])))))
      = String.mk (natRender m ++ ':' :: pad2 (natRender s)) := by
  rw [iso_some_cons, clockParse_wf_nofrac m s hs]
  have hmins : minsOfGroup (some (natRender m)) = m := by
    simp [minsOfGroup, digitsVal_natRender]
  have hds : digitsVal (pad2 (natRender s)) = s := by
    rw [pad2_natRender hs, digitsVal_two (by omega) (by omega)]
    omega
  have hsecs : secsOfGroup (some (pad2 (natRender s), none)) = (s : ℚ) + (0 : ℚ) / 100 := by
    simp [secsOfGroup, hds]
  have hfmt : fmt52 (secsOfGroup (some (pad2 (natRender s), none)))
      = pad2 (natRender s) ++ '.' :: [digitChar 0, digitChar 0] := by
    rw [hsecs]
    have := fmt52_eval s 0 (by norm_num)
    simpa using this
  simp only [hmins, hfmt]
  have hB : natRender m ++ ':' :: (pad2 (natRender s) ++ '.' :: [digitChar 0, digitChar 0])
      = ((natRender m ++ ':' :: [digitChar (s / 10)]) ++ [digitChar (s % 10)]) ++ '.' :: [digitChar (0 / 10), digitChar (0 % 10)] := by
    rw [pad2_natRender hs]
    simp
  have hstrip := strip_frac (natRender m ++ ':' :: [digitChar (s / 10)]) (s % 10) (by omega) 0 (by norm_num)
  have hBback : (natRender m ++ ':' :: [digitChar (s / 10)]) ++ [digitChar (s % 10)]
      = natRender m ++ ':' :: pad2 (natRender s) := by
    rw [pad2_natRender hs]
    simp
  rw [hB, hstrip, hBback]
  have hany : ((natRender m ++ ':' :: pad2 (natRender s)) ++ fracSuffix 0).any
      (fun ch => decide (ch = ':')) = true := by
    apply List.any_eq_true.mpr
    exact ⟨':', by simp, by decide⟩
  rw [hany]
  simp [fracSuffix]

/-- C7 (corrected): `iso_to_pctimestring` converts `PTmmMss.ffS` (and
`PTmmMssS`) to `m:ss` with any nonzero fractional seconds preserved to TWO
decimal places, trailing zeros and then a trailing dot stripped (so `.ff`
survives in full whenever its last digit is nonzero, and as `.f1` when only
the second digit is zero); absent input and any string the clock regex does
not match yield `"0:00"`. -/
theorem C7_iso_theorem (m s f : ℕ) (hs : s < 100) (hf : f < 100) :
    (iso_to_pctimestring (some (String.mk ('P' :: 'T' :: (natRender m ++ 'M' :: (pad2 (natRender s) ++ '.' :: digitChar (f / 10) :: digitChar (f % 10) :: ['S'])))))
       = String.mk ((natRender m ++ ':' :: pad2 (natRender s)) ++ fracSuffix f))
    ∧ (iso_to_pctimestring (some (String.mk ('P' :: 'T' :: (natRender m ++ 'M' :: (pad2 (natRender s) ++ ['S'])))))
       = String.mk (natRender m ++ ':' :: pad2 (natRender s)))
    ∧ iso_to_pctimestring none = "0:00"
    ∧ (∀ str : String, clockParse str.data = none → iso_to_pctimestring (some str) = "0:00") := by
  refine ⟨iso_eval_frac m s f hs hf, iso_eval_nofrac m s hs, rfl, ?_⟩
  intro str hfail
  cases hd : str.data with
  | nil =>
      show (match str.data with
        | [] => "0:00"
        | c :: cs => match clockParse (c :: cs) with
          | none => "0:00"
          | some (g1, g2) =>
              let mins := minsOfGroup g1
              let pct := natRender mins ++ ':' :: fmt52 (secsOfGroup g2)
              let stripped := rstrip '.' (rstrip '0' pct)
              if stripped.any (fun ch => decide (ch = ':')) then String.mk stripped
              else String.mk (natRender mins ++ ':' :: ['0', '0'])) = "0:00"
      rw [hd]
  | cons c cs =>
      rw [hd] at hfail
      show (match str.data with
        | [] => "0:00"
        | c :: cs => match clockParse (c :: cs) with
          | none => "0:00"
          | some (g1, g2) =>
              let mins := minsOfGroup g1
              let pct := natRender mins ++ ':' :: fmt52 (secsOfGroup g2)
              let stripped := rstrip '.' (rstrip '0' pct)
              if stripped.any (fun ch => decide (ch = ':')) then String.mk stripped
              else String.mk (natRender mins ++ ':' :: ['0', '0'])) = "0:00"
      rw [hd]
      show (match clockParse (c :: cs) with
        | none => "0:00"
        | some (g1, g2) =>
            let mins := minsOfGroup g1
            let pct := natRender mins ++ ':' :: fmt52 (secsOfGroup g2)
            let stripped := rstrip '.' (rstrip '0' pct)
            if stripped.any (fun ch => decide (ch = ':')) then String.mk stripped
            else String.mk (natRender mins ++ ':' :: ['0', '0'])) = "0:00"
      rw [hfail]

/-- Witness for C7 at `PT11M38.00S`: the fraction strips away entirely,
giving `11:38`. -/
theorem C7_iso_witness : iso_to_pctimestring (some "PT11M38.00S") = "11:38" := by
  have h := (C7_iso_theorem 11 38 0 (by norm_num) (by norm_num)).1
  have hin : String.mk ('P' :: 'T' :: (natRender 11 ++ 'M' :: (pad2 (natRender 38) ++ '.' :: digitChar (0 / 10) :: digitChar (0 % 10) :: ['S'])))
      = "PT11M38.00S" := by decide
  have hout : String.mk ((natRender 11 ++ ':' :: pad2 (natRender 38)) ++ fracSuffix 0)
      = "11:38" := by decide
  rw [← hin, h, hout]

/-- Counterexample to C7 as stated: `PT0M00.55S` keeps BOTH fraction
digits — the output is `0:00.55`, not a one-decimal rendering. -/
theorem C7_iso_counterexample :
    iso_to_pctimestring (some "PT0M00.55S") = "0:00.55"
    ∧ ("0:00.55" : String) ≠ "0:00.5"
    ∧ ("0:00.55" : String) ≠ "0:00.6" := by
  refine ⟨?_, by decide, by decide⟩
  have h := iso_eval_frac 0 0 55 (by norm_num) (by norm_num)
  have hin : String.mk ('P' :: 'T' :: (natRender 0 ++ 'M' :: (pad2 (natRender 0) ++ '.' :: digitChar (55 / 10) :: digitChar (55 % 10) :: ['S'])))
      = "PT0M00.55S" := by decide
  have hout : String.mk ((natRender 0 ++ ':' :: pad2 (natRender 0)) ++ fracSuffix 55)
      = "0:00.55" := by decide
  rw [← hin, h, hout]

end Pbp
